import Mathlib

/-!
# Verification of the trace checker of memory_replay (VerifyTrace.cpp)

The scan loop of `VerifyTrace` is embedded as a step function on an explicit
state (entry array, live-pointer map, the two flags and the printed
violations), iterated over the positions `0 .. num_entries - 1`.
-/

set_option autoImplicit false

namespace MemoryReplay

/-- Modelled from the spec: the entry kinds of memory_trace::TypeEnum. The header
MemoryTrace.h is not among the sources; the six kinds are the six case labels of
the switch in VerifyTrace (ALLOCATE, ZEROED_ALLOCATE, ALIGNED_ALLOCATE,
REALLOCATE, RELEASE, THREAD_END of the data model). -/
inductive TypeEnum where
  | MALLOC
  | CALLOC
  | MEMALIGN
  | REALLOC
  | FREE
  | THREAD_DONE
  deriving DecidableEq, Repr

open TypeEnum

/-- Modelled from the spec: memory_trace::Entry (MemoryTrace.h is not among the
sources). The fields read by VerifyTrace are type, ptr and u.old_ptr (here
old_ptr); tid, size and timestamp stand for the payload the checker never
inspects. Addresses are uint64_t values; no arithmetic is done on them. -/
structure Entry where
  type : TypeEnum
  ptr : Nat
  old_ptr : Nat
  tid : Nat
  size : Nat
  timestamp : Nat
  deriving DecidableEq, Repr

/-- The map live_ptrs of VerifyTrace: address to (entry pointer, line), the entry
pointer being kept as the index into the entry array. -/
abbrev LiveMap := List (Nat × (Nat × Nat))

/-- Lookup, live_ptrs.find(key). -/
def live_find : LiveMap → Nat → Option (Nat × Nat)
  | [], _ => none
  | (k, v) :: m, key => if k = key then some v else live_find m key

/-- Removal, live_ptrs.erase(it) for the iterator found at key. -/
def live_erase : LiveMap → Nat → LiveMap
  | [], _ => []
  | (k, v) :: m, key => if k = key then live_erase m key else (k, v) :: live_erase m key

/-- Assignment live_ptrs[key] = v. -/
def live_insert (m : LiveMap) (key : Nat) (v : Nat × Nat) : LiveMap :=
  (key, v) :: live_erase m key

/-- The addresses that are keys of the map. -/
def live_keys (m : LiveMap) : List Nat := m.map Prod.fst

/-- One violation printed by the scan.
* unknown_free: "Line N: freeing of unknown ptr P", the entry printed below it,
  and whether "Unable to repair this failure." follows (attempt_repair).
* duplicate: "Line N: duplicate ptr P previously found at line M", the entry
  printed under "Original entry:" (the source prints the current entry there),
  the entry printed under "Duplicate pointer entry:" (the entry the recorded
  pointer refers to), and, as a record of what the scan did next, the position
  of the FREE entry it was swapped with, if any. -/
inductive Violation where
  | unknown_free (line : Nat) (ptr : Nat) (entry : Entry) (unable : Bool)
  | duplicate (line : Nat) (ptr : Nat) (prev_line : Nat) (original_entry : Entry)
      (duplicate_entry : Option Entry) (swapped : Option Nat)
  deriving DecidableEq, Repr

/-- The variables of VerifyTrace that the loop reads and writes. -/
structure State where
  entries : List Entry
  live_ptrs : LiveMap
  found_error : Bool
  error_repaired : Bool
  log : List Violation
  deriving DecidableEq, Repr

/-- The search loop for (j = i + 1; j < num_entries; j++): called on the entries
from position j on, it returns the first position holding a FREE of ptr. -/
def find_free (ptr : Nat) : List Entry → Nat → Option Nat
  | [], _ => none
  | e :: rest, j =>
    if e.type = TypeEnum.FREE ∧ e.ptr = ptr then some j else find_free ptr rest (j + 1)

/-- The three assignments alloc_entry = *entry; *entry = entries[j];
entries[j] = alloc_entry. -/
def swap_entries (entries : List Entry) (i j : Nat) : List Entry :=
  match entries[i]?, entries[j]? with
  | some a, some b => (entries.set i b).set j a
  | _, _ => entries

/-- The check of a released address, the same code in the REALLOC case (for
u.old_ptr) and in the FREE case (for ptr): a non-zero address must be in the
map and is erased from it; otherwise the error is printed. -/
def release (attempt_repair : Bool) (i : Nat) (entry : Entry) (addr : Nat) (s : State) : State :=
  if addr ≠ 0 then
    match live_find s.live_ptrs addr with
    | none =>
      { s with
        found_error := true
        log := s.log ++ [Violation.unknown_free (i + 1) addr entry attempt_repair] }
    | some _ => { s with live_ptrs := live_erase s.live_ptrs addr }
  else s

/-- The value of the local ptr after the switch: the address of an allocation
entry, 0 for FREE and THREAD_DONE. -/
def result_ptr (entry : Entry) : Nat :=
  match entry.type with
  | TypeEnum.MALLOC => entry.ptr
  | TypeEnum.MEMALIGN => entry.ptr
  | TypeEnum.CALLOC => entry.ptr
  | TypeEnum.REALLOC => entry.ptr
  | TypeEnum.FREE => 0
  | TypeEnum.THREAD_DONE => 0

/-- The switch statement on entry->type, as far as it changes the state. -/
def release_phase (attempt_repair : Bool) (i : Nat) (entry : Entry) (s : State) : State :=
  match entry.type with
  | TypeEnum.REALLOC => release attempt_repair i entry entry.old_ptr s
  | TypeEnum.FREE => release attempt_repair i entry entry.ptr s
  | _ => s

/-- The block if (ptr != 0) after the switch: duplicate check, swap repair,
registration. -/
def register (attempt_repair : Bool) (i : Nat) (entry : Entry) (ptr : Nat) (s : State) : State :=
  if ptr ≠ 0 then
    match live_find s.live_ptrs ptr with
    | some old =>
      if attempt_repair then
        match find_free ptr (s.entries.drop (i + 1)) (i + 1) with
        | some j =>
          { entries := swap_entries s.entries i j
            live_ptrs := live_erase s.live_ptrs ptr
            found_error := true
            error_repaired := true
            log := s.log ++
              [Violation.duplicate (i + 1) ptr old.2 entry s.entries[old.1]? (some j)] }
        | none =>
          { s with
            found_error := true
            error_repaired := false
            log := s.log ++
              [Violation.duplicate (i + 1) ptr old.2 entry s.entries[old.1]? none] }
      else
        { s with
          found_error := true
          log := s.log ++
            [Violation.duplicate (i + 1) ptr old.2 entry s.entries[old.1]? none] }
    | none => { s with live_ptrs := live_insert s.live_ptrs ptr (i, i + 1) }
  else s

/-- One iteration of the loop over the entries, at position i. -/
def step (attempt_repair : Bool) (i : Nat) (s : State) : State :=
  match s.entries[i]? with
  | none => s
  | some entry =>
    register attempt_repair i entry (result_ptr entry) (release_phase attempt_repair i entry s)

/-- The loop for (i = ...; i < num_entries; i++): n iterations from position i. -/
def scan (attempt_repair : Bool) : Nat → Nat → State → State
  | 0, _, s => s
  | n + 1, i, s => scan attempt_repair n (i + 1) (step attempt_repair i s)

/-- The state in which the loop is entered. -/
def init_state (entries : List Entry) : State :=
  { entries := entries, live_ptrs := [], found_error := false, error_repaired := false, log := [] }

/-- The state when the loop of VerifyTrace is left. -/
def VerifyTrace (attempt_repair : Bool) (entries : List Entry) : State :=
  scan attempt_repair entries.length 0 (init_state entries)

/-- What VerifyTrace does after the loop. -/
inductive Report where
  | valid
  | not_valid
  | repair_written (entries : List Entry)
  | repair_failed
  deriving DecidableEq, Repr

/-- The statements after the loop: "is valid", or "is not valid" followed, when
attempt_repair is set, by the call of WriteRepairEntries on the entries or by
"Attempt to repair trace has failed." -/
def final_report (attempt_repair : Bool) (s : State) : Report :=
  if s.found_error then
    if attempt_repair then
      if s.error_repaired then Report.repair_written s.entries else Report.repair_failed
    else Report.not_valid
  else Report.valid

/-- An entry of the given kind and addresses, with the payload left at 0. -/
def mk_entry (t : TypeEnum) (ptr old_ptr : Nat) : Entry :=
  { type := t, ptr := ptr, old_ptr := old_ptr, tid := 0, size := 0, timestamp := 0 }

/-! ## The allocator semantics of the data model

A second, independent account of the traces, written from the data model: the
set of live addresses, the releases that need a live address and the
allocations that need a free one. -/

/-- Release of an address under the data model: address 0 is ignored, a live
address stops being live, any other address is a violation (none). -/
def spec_release (live : Finset Nat) (addr : Nat) : Option (Finset Nat) :=
  if addr = 0 then some live
  else if addr ∈ live then some (live.erase addr) else none

/-- Return of an address by an allocation under the data model: address 0 is
ignored, an address that is not live becomes live, a live one is a violation. -/
def spec_allocate (live : Finset Nat) (addr : Nat) : Option (Finset Nat) :=
  if addr = 0 then some live
  else if addr ∈ live then none else some (insert addr live)

/-- Effect of one entry on the set of live addresses, none when the entry
violates the allocator semantics. A REALLOCATE releases its previous address
and then returns its address. -/
def spec_entry (live : Finset Nat) (e : Entry) : Option (Finset Nat) :=
  match e.type with
  | TypeEnum.MALLOC => spec_allocate live e.ptr
  | TypeEnum.CALLOC => spec_allocate live e.ptr
  | TypeEnum.MEMALIGN => spec_allocate live e.ptr
  | TypeEnum.REALLOC => (spec_release live e.old_ptr).bind (fun l => spec_allocate l e.ptr)
  | TypeEnum.FREE => spec_release live e.ptr
  | TypeEnum.THREAD_DONE => some live

/-- The live addresses after a sequence of entries, none when one of them
violates the allocator semantics. -/
def spec_run : Finset Nat → List Entry → Option (Finset Nat)
  | live, [] => some live
  | live, e :: es => (spec_entry live e).bind (fun l => spec_run l es)

/-- A trace obeys the allocator semantics: started with no live address, no
entry of it is a violation. -/
def spec_valid (es : List Entry) : Prop := (spec_run ∅ es).isSome = true

instance (es : List Entry) : Decidable (spec_valid es) := by
  unfold spec_valid; infer_instance

/-- An entry releases address p: it is a FREE of p or a REALLOC with old pointer p. -/
def releases (e : Entry) (p : Nat) : Prop :=
  (e.type = TypeEnum.FREE ∧ e.ptr = p) ∨ (e.type = TypeEnum.REALLOC ∧ e.old_ptr = p)

instance (e : Entry) (p : Nat) : Decidable (releases e p) := by
  unfold releases; infer_instance

/-- Address p is released in the trace and no entry of the trace returns it: it
is released before it was ever allocated and never allocated later. -/
def released_never_allocated (es : List Entry) (p : Nat) : Prop :=
  p ≠ 0 ∧ (∃ e ∈ es, releases e p) ∧ (∀ e ∈ es, result_ptr e ≠ p)

/-- The entry without its release: the released address field set to 0. -/
def clear_release (e : Entry) : Entry :=
  match e.type with
  | TypeEnum.FREE => { e with ptr := 0 }
  | TypeEnum.REALLOC => { e with old_ptr := 0 }
  | _ => e

/-- Number of release-of-unknown-address violations in a log. -/
def unknown_free_count (log : List Violation) : Nat :=
  log.countP (fun v => match v with
    | Violation.unknown_free _ _ _ _ => true
    | _ => false)

/-- The trace MALLOC 1, MALLOC 2, REALLOC (old pointer 2, new pointer 1), MALLOC 2,
FREE 1: the REALLOC returns the live address 1, and the FREE of 1 follows. -/
def realloc_duplicate_trace : List Entry :=
  [mk_entry MALLOC 1 0, mk_entry MALLOC 2 0, mk_entry REALLOC 1 2, mk_entry MALLOC 2 0,
   mk_entry FREE 1 0]

/-- Number of positions at which two entry sequences differ. -/
def diff_count (a b : List Entry) : Nat :=
  (List.zip a b).countP (fun p => decide (p.1 ≠ p.2))

/-- Number of duplicate violations of a log that were repaired by a swap. -/
def swap_count (log : List Violation) : Nat :=
  log.countP (fun v => match v with
    | Violation.duplicate _ _ _ _ _ (some _) => true
    | _ => false)

/-- Number of duplicate-live-address violations in a log. -/
def duplicate_count (log : List Violation) : Nat :=
  log.countP (fun v => match v with
    | Violation.duplicate _ _ _ _ _ _ => true
    | _ => false)

/-- The trace MALLOC 1, MALLOC 1, FREE 1, MALLOC 2, MALLOC 2, FREE 2, with two
duplicates that each have a later FREE. -/
def two_duplicates_trace : List Entry :=
  [mk_entry MALLOC 1 0, mk_entry MALLOC 1 0, mk_entry FREE 1 0,
   mk_entry MALLOC 2 0, mk_entry MALLOC 2 0, mk_entry FREE 2 0]

/-- Outcome of the last repair attempt recorded in a log: whether the last
duplicate violation was repaired by a swap; false when there is none. -/
def last_duplicate_swapped (log : List Violation) : Bool :=
  log.foldl (fun acc v => match v with
    | Violation.duplicate _ _ _ _ _ sw => sw.isSome
    | _ => acc) false

/-- The trace MALLOC 1, MALLOC 1, FREE 1, MALLOC 2, MALLOC 2: a duplicate with a
later FREE, then a duplicate without one. -/
def repaired_then_unrepairable_trace : List Entry :=
  [mk_entry MALLOC 1 0, mk_entry MALLOC 1 0, mk_entry FREE 1 0,
   mk_entry MALLOC 2 0, mk_entry MALLOC 2 0]

/-- A violation of a log is not a duplicate with a later FREE: for a duplicate
violation of address p printed for line n (position n - 1), no entry at a
later position of the trace is a FREE of p. -/
def no_free_after (es : List Entry) (v : Violation) : Prop :=
  match v with
  | Violation.duplicate line p _ _ _ _ =>
    ∀ e ∈ es.drop line, ¬ (e.type = TypeEnum.FREE ∧ e.ptr = p)
  | Violation.unknown_free _ _ _ _ => True

instance (es : List Entry) (v : Violation) : Decidable (no_free_after es v) := by
  cases v <;> unfold no_free_after <;> infer_instance

/-- A violation that the swap repairs for good: a duplicate that was swapped with
a later FREE and whose entry (the one printed as the original entry) is not a
REALLOC with a non-zero old pointer. -/
def repaired_plainly (v : Violation) : Prop :=
  match v with
  | Violation.duplicate _ _ _ original _ (some _) =>
    ¬ (original.type = TypeEnum.REALLOC ∧ original.old_ptr ≠ 0)
  | _ => False

instance (v : Violation) : Decidable (repaired_plainly v) := by
  unfold repaired_plainly
  split <;> infer_instance

/-- The trace FREE 5, MALLOC 1, MALLOC 1, FREE 1: a release of an unknown address,
then a duplicate with a later FREE. -/
def unknown_release_and_duplicate_trace : List Entry :=
  [mk_entry FREE 5 0, mk_entry MALLOC 1 0, mk_entry MALLOC 1 0, mk_entry FREE 1 0]

/-- The violations that state r logged after state s are all repaired for good. -/
def new_violations_repaired (s r : State) : Prop :=
  ∀ l, r.log = s.log ++ l → ∀ v ∈ l, repaired_plainly v

/-! ## The scan as a function of the entries still to come

A second account of the loop, used in the proofs about inserted and deleted
entries: what the scan reports (the live addresses and the two flags) is
computed from the entries from the current position on. -/

/-- The part of the state that the results of the scan are read from: the keys
of the live-pointer map and the two flags. -/
structure Obs where
  keys : List Nat
  found_error : Bool
  error_repaired : Bool
  deriving DecidableEq, Repr

/-- The observable part of a state of the scan. -/
def observe (s : State) : Obs :=
  { keys := live_keys s.live_ptrs, found_error := s.found_error,
    error_repaired := s.error_repaired }

/-- The entries to come after the swap of entry e with the first FREE of ptr
among them, none when there is no such FREE. -/
def replace_first_free (ptr : Nat) (e : Entry) : List Entry → Option (List Entry)
  | [] => none
  | x :: xs =>
    if x.type = TypeEnum.FREE ∧ x.ptr = ptr then some (e :: xs)
    else (replace_first_free ptr e xs).map (fun r => x :: r)

/-- The function release on the observable part. -/
def obs_release (o : Obs) (addr : Nat) : Obs :=
  if addr ≠ 0 then
    if addr ∈ o.keys then { o with keys := o.keys.filter (fun a => decide (a ≠ addr)) }
    else { o with found_error := true }
  else o

/-- The function release_phase on the observable part. -/
def obs_release_phase (o : Obs) (e : Entry) : Obs :=
  match e.type with
  | TypeEnum.REALLOC => obs_release o e.old_ptr
  | TypeEnum.FREE => obs_release o e.ptr
  | _ => o

/-- The function register on the observable part and the entries to come. -/
def obs_register (attempt_repair : Bool) (o : Obs) (e : Entry) (ptr : Nat)
    (rest : List Entry) : Obs × List Entry :=
  if ptr ≠ 0 then
    if ptr ∈ o.keys then
      if attempt_repair then
        match replace_first_free ptr e rest with
        | some rest1 =>
          ({ keys := o.keys.filter (fun a => decide (a ≠ ptr)), found_error := true,
             error_repaired := true }, rest1)
        | none => ({ o with found_error := true, error_repaired := false }, rest)
      else ({ o with found_error := true }, rest)
    else ({ o with keys := ptr :: o.keys.filter (fun a => decide (a ≠ ptr)) }, rest)
  else (o, rest)

/-- The function step on the observable part and the entries to come. -/
def obs_step (attempt_repair : Bool) (o : Obs) (e : Entry) (rest : List Entry) :
    Obs × List Entry :=
  obs_register attempt_repair (obs_release_phase o e) e (result_ptr e) rest

/-- The function scan on the observable part and the entries to come. -/
def obs_scan (attempt_repair : Bool) : Nat → Obs → List Entry → Obs
  | 0, o, _ => o
  | _ + 1, o, [] => o
  | n + 1, o, e :: rest =>
    obs_scan attempt_repair n (obs_step attempt_repair o e rest).1
      (obs_step attempt_repair o e rest).2

/-- The trace with entry td inserted at position k. -/
def insert_entry (k : Nat) (td : Entry) (es : List Entry) : List Entry :=
  es.take k ++ td :: es.drop k

/-- The trace with all its THREAD_DONE entries deleted. -/
def without_thread_done (es : List Entry) : List Entry :=
  es.filter (fun e => decide (e.type ≠ TypeEnum.THREAD_DONE))

/-- An entry of an allocation kind: MALLOC, MEMALIGN, CALLOC or REALLOC. -/
def is_allocation (e : Entry) : Prop :=
  e.type = TypeEnum.MALLOC ∨ e.type = TypeEnum.MEMALIGN ∨ e.type = TypeEnum.CALLOC ∨
    e.type = TypeEnum.REALLOC

instance (e : Entry) : Decidable (is_allocation e) := by
  unfold is_allocation; infer_instance

/-- The invariant of the live-pointer map after the positions below i have been
processed: every key is non-zero and is recorded with an entry index and the
line index + 1, at most i, at which the entry array now holds an allocation
entry with the key as its address; no key and no line occurs twice. -/
def live_map_sound (i : Nat) (s : State) : Prop :=
  (∀ p idx line, (p, (idx, line)) ∈ s.live_ptrs →
    p ≠ 0 ∧ line = idx + 1 ∧ line ≤ i ∧
    ∃ e, s.entries[idx]? = some e ∧ is_allocation e ∧ e.ptr = p) ∧
  (live_keys s.live_ptrs).Nodup ∧
  (s.live_ptrs.map (fun x => x.2.2)).Nodup

/-- The trace of two MALLOC entries of address 16, told apart by their tid (1 for
the first, 2 for the second). -/
def tagged_duplicate_trace : List Entry :=
  [{ type := TypeEnum.MALLOC, ptr := 16, old_ptr := 0, tid := 1, size := 8, timestamp := 0 },
   { type := TypeEnum.MALLOC, ptr := 16, old_ptr := 0, tid := 2, size := 8, timestamp := 0 }]

/-! ## The command line (main)

The call of getopt_long is the C library's; what it returns for the command
lines of the usage text is described here from its documentation. -/

/-- The table options of main: the name and the val of its one long option. -/
def options : List (String × Char) := [("attempt_repair", 'a')]

/-- What getopt_long returns for a command-line element "--name" and a table of
long options without argument: the val of the option called name, else of the
only option that name abbreviates, else '?'. -/
def getopt_long_match (table : List (String × Char)) (name : String) : Int :=
  match table.filter (fun o => decide (o.1 = name)) with
  | o :: _ => (o.2.toNat : Int)
  | [] =>
    match table.filter (fun o => name.data.isPrefixOf o.1.data) with
    | [o] => (o.2.toNat : Int)
    | _ => (('?' : Char).toNat : Int)

/-- The one call getopt_long(argc, argv, "", options, &option_index) of main, for
the command lines of the usage text: its return value and optind after it. When
argv[1] is "--name" the option is looked up and optind is 2; when no argument
begins with '-' the result is -1 and optind is 1. Other command lines are not
described (none). -/
def getopt_long (argv : List String) : Option (Int × Nat) :=
  match argv.drop 1 with
  | [] => some (-1, 1)
  | first :: rest =>
    if first.data.take 2 = ['-', '-'] ∧ 2 < first.data.length then
      some (getopt_long_match options (String.mk (first.data.drop 2)), 2)
    else if (first :: rest).all (fun a => decide (a.data.head? ≠ some '-')) then
      some (-1, 1)
    else none

/-- What a run of main does: Usage() (after the message "Requires at least one
TRACE_FILE" or without it) and exit(1), or the calls VerifyTrace(argv[i],
attempt_repair) for i from optind on, and return 0. -/
inductive Outcome where
  | usage_exit (requires_message : Bool)
  | verified (calls : List (String × Bool))
  deriving DecidableEq, Repr

/-- The body of main after the call of getopt_long, given what it returned. -/
def main_after_getopt (opt : Int) (optind : Nat) (argv : List String) : Outcome :=
  if opt = (('a' : Char).toNat : Int) then
    Outcome.verified ((argv.drop optind).map (fun f => (f, true)))
  else if opt ≠ -1 then Outcome.usage_exit false
  else if optind = argv.length then Outcome.usage_exit true
  else Outcome.verified ((argv.drop optind).map (fun f => (f, false)))

/-- The function main on a command line argv (argv[0] is the program name). -/
def main (argv : List String) : Option Outcome :=
  (getopt_long argv).map (fun r => main_after_getopt r.1 r.2 argv)

/-! ## MakeAllocationResident (Utils.h) -/

/-- The number of values of size_t and uintptr_t. -/
def word : Nat := 2 ^ 64

/-- The loop for (size_t i = start; i < nbytes; i += pagesize) data[i] = 1, as
the list of the addresses written, in at most fuel iterations from i. -/
def resident_loop (data nbytes pagesize : Nat) : Nat → Nat → List Nat
  | 0, _ => []
  | fuel + 1, i =>
    if i < nbytes then
      ((data + i) % word) :: resident_loop data nbytes pagesize fuel ((i + pagesize) % word)
    else []

/-- The effective byte count: present_bytes, cast to size_t, when it is not -1 and
is smaller than nbytes. -/
def effective_bytes (nbytes : Nat) (present_bytes : Int) : Nat :=
  if present_bytes ≠ -1 ∧ (present_bytes % (word : Int)).toNat < nbytes then
    (present_bytes % (word : Int)).toNat
  else nbytes

/-- The value (ptr + pagesize - 1) & ~(pagesize - 1) as a uintptr_t; the int
~(pagesize - 1) is -pagesize, converted to 64 bits. -/
def page_align (ptr pagesize : Nat) : Nat :=
  Nat.land ((ptr + pagesize + word - 1) % word) ((word - pagesize % word) % word)

/-- The addresses that MakeAllocationResident writes, in order, for an address
ptr below 2^64 and a positive pagesize. The loop makes at most nbytes
iterations, each adding pagesize to i. -/
def MakeAllocationResident (ptr nbytes : Nat) (present_bytes : Int) (pagesize : Nat) :
    List Nat :=
  let n := effective_bytes nbytes present_bytes
  let page_aligned := page_align ptr pagesize
  if page_aligned ≠ ptr then
    ptr :: resident_loop page_aligned n pagesize n ((page_aligned + word - ptr) % word)
  else resident_loop ptr n pagesize n 0

/-- An entry that acts as a fresh allocation: MALLOC, MEMALIGN, CALLOC, or a REALLOC
whose old pointer is 0. -/
def is_fresh_allocation (e : Entry) : Prop :=
  e.type = TypeEnum.MALLOC ∨ e.type = TypeEnum.MEMALIGN ∨ e.type = TypeEnum.CALLOC ∨
    (e.type = TypeEnum.REALLOC ∧ e.old_ptr = 0)

instance (e : Entry) : Decidable (is_fresh_allocation e) := by
  unfold is_fresh_allocation; infer_instance

/-- Two entries that one may stand for the other when fresh allocations of the same
address are exchanged: the same entry, or two fresh allocations of one address. -/
def same_allocation (e1 e2 : Entry) : Prop :=
  e1 = e2 ∨ (is_fresh_allocation e1 ∧ is_fresh_allocation e2 ∧ e1.ptr = e2.ptr)

instance (e1 e2 : Entry) : Decidable (same_allocation e1 e2) := by
  unfold same_allocation; infer_instance

/-- A fresh allocation written as the MALLOC of its address with an empty payload;
any other entry as it is. -/
def as_malloc (e : Entry) : Entry :=
  if is_fresh_allocation e then mk_entry TypeEnum.MALLOC e.ptr 0 else e

/-- A violation with the entries printed in it written by as_malloc. -/
def as_malloc_violation : Violation → Violation
  | Violation.unknown_free line ptr e unable =>
    Violation.unknown_free line ptr (as_malloc e) unable
  | Violation.duplicate line ptr prev o d sw =>
    Violation.duplicate line ptr prev (as_malloc o) (d.map as_malloc) sw

/-- A state with the entries of its array and of its log written by as_malloc. -/
def as_malloc_state (s : State) : State :=
  { s with entries := s.entries.map as_malloc, log := s.log.map as_malloc_violation }

/-- What a violation says apart from the entries printed with it: its kind (true
for a duplicate), line, address, previous line and swap partner. -/
def violation_shape : Violation → Bool × Nat × Nat × Nat × Option Nat
  | Violation.unknown_free line ptr _ _ => (false, line, ptr, 0, none)
  | Violation.duplicate line ptr prev _ _ sw => (true, line, ptr, prev, sw)

/-- The violations of a log of the repairing scan that were not repaired by a swap,
as a scan without attempt_repair prints them (without the note "Unable to
repair this failure."). -/
def unrepaired_violations (log : List Violation) : List Violation :=
  log.filterMap (fun v => match v with
    | Violation.unknown_free line ptr e _ => some (Violation.unknown_free line ptr e false)
    | Violation.duplicate line ptr prev o d none =>
      some (Violation.duplicate line ptr prev o d none)
    | Violation.duplicate _ _ _ _ _ (some _) => none)

/-- No entry of the trace is a REALLOC with a non-zero old pointer. -/
def no_realloc_release (es : List Entry) : Prop :=
  ∀ e ∈ es, ¬ (e.type = TypeEnum.REALLOC ∧ e.old_ptr ≠ 0)

instance (es : List Entry) : Decidable (no_realloc_release es) := by
  unfold no_realloc_release; infer_instance

/-- What the repairing step at position i, from state s to state s1, did when it
printed violation v. For a duplicate: it is printed for line i + 1 and for the
entry o found at position i, whose non-zero address p was live after the
switch; the swap partner recorded with it is the result of the forward search
in the entries of s, and the entries of s1 are those of s with positions i and
the partner exchanged, or those of s when the search found nothing. For a
release of an unknown address: it is printed for line i + 1. -/
def violation_history (i : Nat) (s s1 : State) (v : Violation) : Prop :=
  match v with
  | Violation.unknown_free line _ _ _ => line = i + 1
  | Violation.duplicate line p _ o _ sw =>
    line = i + 1 ∧ s.entries[i]? = some o ∧ result_ptr o = p ∧ p ≠ 0 ∧
    p ∈ live_keys (release_phase true i o s).live_ptrs ∧
    sw = find_free p (s.entries.drop (i + 1)) (i + 1) ∧
    s1.entries =
      (match sw with
        | some j => swap_entries s.entries i j
        | none => s.entries)

/-! ## Theorems -/

/-! ### The live-pointer map -/

theorem live_find_eq_none_iff (m : LiveMap) (k : Nat) :
    live_find m k = none ↔ k ∉ live_keys m := by
  induction m with
  | nil => simp [live_find, live_keys]
  | cons p m ih =>
    obtain ⟨a, v⟩ := p
    by_cases h : a = k
    · simp [live_find, live_keys, h]
    · have h2 : ¬ k = a := fun e => h e.symm
      simpa [live_find, live_keys, h, h2] using ih

theorem live_find_isSome_iff (m : LiveMap) (k : Nat) :
    (∃ v, live_find m k = some v) ↔ k ∈ live_keys m := by
  rw [← not_iff_not, ← live_find_eq_none_iff]
  cases live_find m k <;> simp

theorem live_keys_erase (m : LiveMap) (k : Nat) :
    live_keys (live_erase m k) = (live_keys m).filter (fun a => decide (a ≠ k)) := by
  induction m with
  | nil => simp [live_erase, live_keys]
  | cons p m ih =>
    obtain ⟨a, v⟩ := p
    by_cases h : a = k
    · simpa [live_erase, live_keys, h] using ih
    · simpa [live_erase, live_keys, h] using ih

theorem live_keys_insert (m : LiveMap) (k : Nat) (v : Nat × Nat) :
    live_keys (live_insert m k v) = k :: (live_keys m).filter (fun a => decide (a ≠ k)) := by
  simp [live_insert, live_keys_erase, live_keys]
  simpa [live_keys] using live_keys_erase m k

theorem mem_live_keys_erase (m : LiveMap) (k a : Nat) :
    a ∈ live_keys (live_erase m k) ↔ a ∈ live_keys m ∧ a ≠ k := by
  simp [live_keys_erase]

theorem mem_live_keys_insert (m : LiveMap) (k a : Nat) (v : Nat × Nat) :
    a ∈ live_keys (live_insert m k v) ↔ a = k ∨ a ∈ live_keys m := by
  simp [live_keys_insert]
  by_cases h : a = k <;> simp [h]


/-! ### Valid traces -/

theorem release_of_live (ar : Bool) (i : Nat) (e : Entry) (addr : Nat) (s : State)
    (L L1 : Finset Nat) (hk : ∀ a, a ∈ live_keys s.live_ptrs ↔ a ∈ L)
    (h : spec_release L addr = some L1) :
    (release ar i e addr s).entries = s.entries ∧
    (release ar i e addr s).found_error = s.found_error ∧
    (release ar i e addr s).error_repaired = s.error_repaired ∧
    (release ar i e addr s).log = s.log ∧
    (∀ a, a ∈ live_keys (release ar i e addr s).live_ptrs ↔ a ∈ L1) := by
  unfold spec_release at h
  unfold release
  by_cases h0 : addr = 0
  · simp [h0] at h ⊢
    subst h
    exact hk
  · by_cases hm : addr ∈ L
    · simp [h0, hm] at h
      subst h
      obtain ⟨v, hv⟩ := (live_find_isSome_iff s.live_ptrs addr).2 ((hk addr).2 hm)
      simp [h0, hv, mem_live_keys_erase, hk]
      tauto
    · simp [h0, hm] at h

theorem register_of_free (ar : Bool) (i : Nat) (e : Entry) (addr : Nat) (s : State)
    (L L1 : Finset Nat) (hk : ∀ a, a ∈ live_keys s.live_ptrs ↔ a ∈ L)
    (h : spec_allocate L addr = some L1) :
    (register ar i e addr s).entries = s.entries ∧
    (register ar i e addr s).found_error = s.found_error ∧
    (register ar i e addr s).error_repaired = s.error_repaired ∧
    (register ar i e addr s).log = s.log ∧
    (∀ a, a ∈ live_keys (register ar i e addr s).live_ptrs ↔ a ∈ L1) := by
  unfold spec_allocate at h
  unfold register
  by_cases h0 : addr = 0
  · simp [h0] at h ⊢
    subst h
    exact hk
  · by_cases hm : addr ∈ L
    · simp [h0, hm] at h
    · simp [h0, hm] at h
      subst h
      have hv : live_find s.live_ptrs addr = none :=
        (live_find_eq_none_iff s.live_ptrs addr).2 (fun hc => hm ((hk addr).1 hc))
      simp [h0, hv, mem_live_keys_insert, hk]

theorem step_of_valid (ar : Bool) (i : Nat) (e : Entry) (s : State)
    (L L1 : Finset Nat) (he : s.entries[i]? = some e)
    (hk : ∀ a, a ∈ live_keys s.live_ptrs ↔ a ∈ L)
    (h : spec_entry L e = some L1) :
    (step ar i s).entries = s.entries ∧
    (step ar i s).found_error = s.found_error ∧
    (step ar i s).error_repaired = s.error_repaired ∧
    (step ar i s).log = s.log ∧
    (∀ a, a ∈ live_keys (step ar i s).live_ptrs ↔ a ∈ L1) := by
  unfold step
  simp only [he]
  unfold spec_entry at h
  unfold release_phase result_ptr
  cases ht : e.type <;> simp only [ht] at h ⊢
  · exact register_of_free ar i e e.ptr s L L1 hk h
  · exact register_of_free ar i e e.ptr s L L1 hk h
  · exact register_of_free ar i e e.ptr s L L1 hk h
  · cases hr : spec_release L e.old_ptr with
    | none => simp [hr] at h
    | some L0 =>
      simp [hr] at h
      obtain ⟨h1, h2, h3, h4, h5⟩ := release_of_live ar i e e.old_ptr s L L0 hk hr
      obtain ⟨g1, g2, g3, g4, g5⟩ :=
        register_of_free ar i e e.ptr (release ar i e e.old_ptr s) L0 L1 h5 h
      exact ⟨g1.trans h1, g2.trans h2, g3.trans h3, g4.trans h4, g5⟩
  · obtain ⟨h1, h2, h3, h4, h5⟩ := release_of_live ar i e e.ptr s L L1 hk h
    refine ⟨?_, ?_, ?_, ?_, ?_⟩ <;> simp [register, *]
  · simp at h
    subst h
    simp [register, hk]

theorem scan_of_valid (ar : Bool) (tail rest : List Entry) :
    ∀ (i : Nat) (s : State) (L L1 : Finset Nat), s.entries.drop i = rest ++ tail →
      (∀ a, a ∈ live_keys s.live_ptrs ↔ a ∈ L) → spec_run L rest = some L1 →
      (scan ar rest.length i s).entries = s.entries ∧
      (scan ar rest.length i s).found_error = s.found_error ∧
      (scan ar rest.length i s).error_repaired = s.error_repaired ∧
      (scan ar rest.length i s).log = s.log ∧
      (∀ a, a ∈ live_keys (scan ar rest.length i s).live_ptrs ↔ a ∈ L1) := by
  induction rest with
  | nil =>
    intro i s L L1 _ hk h
    simp [spec_run] at h
    subst h
    simp [scan, hk]
  | cons e rest ih =>
    intro i s L L1 hd hk h
    have he : s.entries[i]? = some e := by
      have := congrArg List.head? hd
      simpa [List.head?_drop] using this
    simp only [spec_run] at h
    cases h0 : spec_entry L e with
    | none => simp [h0] at h
    | some L0 =>
      simp [h0] at h
      obtain ⟨h1, h2, h3, h4, h5⟩ := step_of_valid ar i e s L L0 he hk h0
      have hd1 : (step ar i s).entries.drop (i + 1) = rest ++ tail := by
        rw [h1]
        have := congrArg List.tail hd
        simpa [List.tail_drop] using this
      obtain ⟨g1, g2, g3, g4, g5⟩ := ih (i + 1) (step ar i s) L0 L1 hd1 h5 h
      simp only [List.length_cons, scan]
      exact ⟨g1.trans h1, g2.trans h2, g3.trans h3, g4.trans h4, g5⟩

/-- C1: a trace that obeys the allocator semantics of the data model (every
RELEASE and every REALLOCATE previous address names a live address, no
allocation returns a live address, address 0 ignored) is scanned without any
error, with either value of attempt_repair: found_error stays false, nothing is
logged, the entries are unchanged and the trace is reported valid. -/
theorem valid_trace_is_reported_valid (attempt_repair : Bool) (entries : List Entry)
    (h : spec_valid entries) :
    (VerifyTrace attempt_repair entries).found_error = false ∧
    (VerifyTrace attempt_repair entries).log = [] ∧
    (VerifyTrace attempt_repair entries).entries = entries ∧
    final_report attempt_repair (VerifyTrace attempt_repair entries) = Report.valid := by
  unfold spec_valid at h
  obtain ⟨L1, hL⟩ := Option.isSome_iff_exists.1 h
  obtain ⟨h1, h2, _, h4, _⟩ :=
    scan_of_valid attempt_repair [] entries 0 (init_state entries) ∅ L1 (by simp [init_state])
      (by simp [init_state, live_keys]) hL
  have hfe : (VerifyTrace attempt_repair entries).found_error = false := by
    simpa [VerifyTrace, init_state] using h2
  refine ⟨hfe, ?_, ?_, ?_⟩
  · simpa [VerifyTrace, init_state] using h4
  · simpa [VerifyTrace, init_state] using h1
  · simp [final_report, hfe]

/-- C1 (witness): MALLOC 16, REALLOC in place of 16, FREE 16 obeys the allocator
semantics and is reported valid. -/
theorem valid_trace_is_reported_valid_witness :
    spec_valid [mk_entry MALLOC 16 0, mk_entry REALLOC 16 16, mk_entry FREE 16 0] ∧
    (VerifyTrace true [mk_entry MALLOC 16 0, mk_entry REALLOC 16 16, mk_entry FREE 16 0]).found_error = false ∧
    (VerifyTrace true [mk_entry MALLOC 16 0, mk_entry REALLOC 16 16, mk_entry FREE 16 0]).log = [] ∧
    (VerifyTrace true [mk_entry MALLOC 16 0, mk_entry REALLOC 16 16, mk_entry FREE 16 0]).entries =
      [mk_entry MALLOC 16 0, mk_entry REALLOC 16 16, mk_entry FREE 16 0] ∧
    final_report true (VerifyTrace true [mk_entry MALLOC 16 0, mk_entry REALLOC 16 16, mk_entry FREE 16 0]) = Report.valid :=
  ⟨by decide, valid_trace_is_reported_valid true _ (by decide)⟩

/-! ### A single release of an unknown address -/

theorem scan_add (ar : Bool) : ∀ (a b i : Nat) (s : State),
    scan ar (a + b) i s = scan ar b (i + a) (scan ar a i s) := by
  intro a
  induction a with
  | zero => intro b i s; simp [scan]
  | succ a ih =>
    intro b i s
    have : a + 1 + b = (a + b) + 1 := by omega
    rw [this]
    simp only [scan]
    rw [ih]
    congr 1
    omega

theorem spec_run_append (L : Finset Nat) (xs ys : List Entry) :
    spec_run L (xs ++ ys) = (spec_run L xs).bind (fun l => spec_run l ys) := by
  induction xs generalizing L with
  | nil => simp [spec_run]
  | cons x xs ih =>
    simp only [List.cons_append, spec_run]
    cases spec_entry L x with
    | none => simp
    | some l => simpa using ih l

theorem spec_allocate_mem (L L1 : Finset Nat) (addr a : Nat)
    (h : spec_allocate L addr = some L1) (ha : a ∈ L1) : a ∈ L ∨ a = addr := by
  unfold spec_allocate at h
  by_cases h0 : addr = 0
  · simp [h0] at h; subst h; exact Or.inl ha
  · by_cases hm : addr ∈ L
    · simp [h0, hm] at h
    · simp [h0, hm] at h
      subst h
      rcases Finset.mem_insert.1 ha with h1 | h1
      · exact Or.inr h1
      · exact Or.inl h1

theorem spec_release_mem (L L1 : Finset Nat) (addr a : Nat)
    (h : spec_release L addr = some L1) (ha : a ∈ L1) : a ∈ L := by
  unfold spec_release at h
  by_cases h0 : addr = 0
  · simp [h0] at h; subst h; exact ha
  · by_cases hm : addr ∈ L
    · simp [h0, hm] at h
      subst h
      exact Finset.mem_of_mem_erase ha
    · simp [h0, hm] at h

theorem spec_entry_mem (L L1 : Finset Nat) (e : Entry) (a : Nat)
    (h : spec_entry L e = some L1) (ha : a ∈ L1) : a ∈ L ∨ result_ptr e = a := by
  unfold spec_entry at h
  unfold result_ptr
  cases ht : e.type <;> simp only [ht] at h ⊢
  · rcases spec_allocate_mem L L1 e.ptr a h ha with h1 | h1
    · exact Or.inl h1
    · exact Or.inr h1.symm
  · rcases spec_allocate_mem L L1 e.ptr a h ha with h1 | h1
    · exact Or.inl h1
    · exact Or.inr h1.symm
  · rcases spec_allocate_mem L L1 e.ptr a h ha with h1 | h1
    · exact Or.inl h1
    · exact Or.inr h1.symm
  · cases hr : spec_release L e.old_ptr with
    | none => simp [hr] at h
    | some L0 =>
      simp [hr] at h
      rcases spec_allocate_mem L0 L1 e.ptr a h ha with h1 | h1
      · exact Or.inl (spec_release_mem L L0 e.old_ptr a hr h1)
      · exact Or.inr h1.symm
  · exact Or.inl (spec_release_mem L L1 e.ptr a h ha)
  · simp at h; subst h; exact Or.inl ha

theorem spec_run_mem (es : List Entry) : ∀ (L L1 : Finset Nat) (a : Nat),
    spec_run L es = some L1 → a ∈ L1 → a ∈ L ∨ ∃ e ∈ es, result_ptr e = a := by
  induction es with
  | nil =>
    intro L L1 a h ha
    simp [spec_run] at h
    subst h
    exact Or.inl ha
  | cons x xs ih =>
    intro L L1 a h ha
    simp only [spec_run] at h
    cases h0 : spec_entry L x with
    | none => simp [h0] at h
    | some L0 =>
      simp [h0] at h
      rcases ih L0 L1 a h ha with h1 | ⟨e, he, h1⟩
      · rcases spec_entry_mem L L0 x a h0 h1 with h2 | h2
        · exact Or.inl h2
        · exact Or.inr ⟨x, by simp, h2⟩
      · exact Or.inr ⟨e, by simp [he], h1⟩

theorem getElem_opt_middle (pre post : List Entry) (r : Entry) :
    (pre ++ r :: post)[pre.length]? = some r := by
  induction pre with
  | nil => simp
  | cons x xs ih => simpa using ih

theorem step_unknown_release (ar : Bool) (i : Nat) (r : Entry) (p : Nat) (s : State)
    (L L2 : Finset Nat) (he : s.entries[i]? = some r)
    (hk : ∀ a, a ∈ live_keys s.live_ptrs ↔ a ∈ L)
    (hp : p ≠ 0) (hr : releases r p) (hpL : p ∉ L)
    (h : spec_entry L (clear_release r) = some L2) :
    (step ar i s).entries = s.entries ∧
    (step ar i s).found_error = true ∧
    (step ar i s).error_repaired = s.error_repaired ∧
    (step ar i s).log = s.log ++ [Violation.unknown_free (i + 1) p r ar] ∧
    (∀ a, a ∈ live_keys (step ar i s).live_ptrs ↔ a ∈ L2) := by
  have hv : live_find s.live_ptrs p = none :=
    (live_find_eq_none_iff s.live_ptrs p).2 (fun hc => hpL ((hk p).1 hc))
  unfold step
  simp only [he]
  rcases hr with ⟨ht, hptr⟩ | ⟨ht, hptr⟩
  · have h' : L2 = L := by
      simp [spec_entry, clear_release, ht, spec_release] at h
      exact h.symm
    subst h'
    simp [release_phase, result_ptr, ht, release, hptr, hp, hv, register, hk]
  · have h' : spec_allocate L r.ptr = some L2 := by
      simpa [spec_entry, clear_release, ht, spec_release] using h
    have hrel : release_phase ar i r s =
        { s with
          found_error := true
          log := s.log ++ [Violation.unknown_free (i + 1) p r ar] } := by
      simp [release_phase, ht, release, hptr, hp, hv]
    have hres : result_ptr r = r.ptr := by simp [result_ptr, ht]
    rw [hrel, hres]
    obtain ⟨g1, g2, g3, g4, g5⟩ := register_of_free ar i r r.ptr
      { s with
        found_error := true
        log := s.log ++ [Violation.unknown_free (i + 1) p r ar] } L L2 hk h'
    exact ⟨g1, g2, g3, g4, g5⟩

/-- C2 (amended): a trace in which exactly one entry r releases (as a FREE, or as
the old pointer of a REALLOC) a non-zero address p that no entry of the trace
returns, and which obeys the allocator semantics once that release is taken out
of r, is scanned, with either value of attempt_repair, with exactly one
violation: the release of the unknown address p at the line of r. found_error
is set and the entries are unchanged. -/
theorem single_unknown_release_reported_once (attempt_repair : Bool) (pre post : List Entry)
    (r : Entry) (p : Nat) (hp : p ≠ 0) (hr : releases r p)
    (hnever : ∀ e ∈ pre ++ r :: post, result_ptr e ≠ p)
    (hvalid : spec_valid (pre ++ clear_release r :: post)) :
    (VerifyTrace attempt_repair (pre ++ r :: post)).log =
      [Violation.unknown_free (pre.length + 1) p r attempt_repair] ∧
    unknown_free_count (VerifyTrace attempt_repair (pre ++ r :: post)).log = 1 ∧
    (VerifyTrace attempt_repair (pre ++ r :: post)).found_error = true ∧
    (VerifyTrace attempt_repair (pre ++ r :: post)).entries = pre ++ r :: post := by
  unfold spec_valid at hvalid
  obtain ⟨L3, hL3⟩ := Option.isSome_iff_exists.1 hvalid
  rw [spec_run_append] at hL3
  cases hL1 : spec_run ∅ pre with
  | none => simp [hL1] at hL3
  | some L1 =>
    simp only [hL1, Option.some_bind, spec_run] at hL3
    cases hL2 : spec_entry L1 (clear_release r) with
    | none => simp [hL2] at hL3
    | some L2 =>
      simp only [hL2, Option.some_bind] at hL3
      have hlen : (pre ++ r :: post).length = pre.length + (1 + post.length) := by
        simp; omega
      unfold VerifyTrace
      rw [hlen, scan_add, scan_add]
      obtain ⟨a1, a2, a3, a4, a5⟩ :=
        scan_of_valid attempt_repair (r :: post) pre 0 (init_state (pre ++ r :: post)) ∅ L1
          (by simp [init_state]) (by simp [init_state, live_keys]) hL1
      generalize scan attempt_repair pre.length 0 (init_state (pre ++ r :: post)) = s1 at *
      have hpL : p ∉ L1 := by
        intro hc
        rcases spec_run_mem pre ∅ L1 p hL1 hc with h1 | ⟨e, he, h1⟩
        · simp at h1
        · exact hnever e (by simp [he]) h1
      have he1 : s1.entries[0 + pre.length]? = some r := by
        rw [a1]
        simpa [init_state] using getElem_opt_middle pre post r
      obtain ⟨b1, b2, b3, b4, b5⟩ :=
        step_unknown_release attempt_repair (0 + pre.length) r p s1 L1 L2 he1 a5 hp hr hpL hL2
      have hs2 : scan attempt_repair 1 (0 + pre.length) s1 = step attempt_repair (0 + pre.length) s1 := by
        simp [scan]
      rw [hs2]
      generalize step attempt_repair (0 + pre.length) s1 = s2 at *
      obtain ⟨c1, c2, c3, c4, c5⟩ :=
        scan_of_valid attempt_repair [] post (0 + pre.length + 1) s2 L2 L3
          (by rw [b1, a1]; simp [init_state]) b5 hL3
      have hlog : (scan attempt_repair post.length (0 + pre.length + 1) s2).log =
          [Violation.unknown_free (pre.length + 1) p r attempt_repair] := by
        rw [c4, b4, a4]; simp [init_state]
      refine ⟨hlog, ?_, ?_, ?_⟩
      · rw [hlog]; simp [unknown_free_count]
      · rw [c2, b2]
      · rw [c1, b1, a1]; simp [init_state]

/-- C2 (witness): in MALLOC 8, REALLOC (16 to 32), FREE 32 the old pointer 16 of
the REALLOC is never returned; the one violation is printed for line 2. -/
theorem single_unknown_release_reported_once_witness :
    (16 : Nat) ≠ 0 ∧ releases (mk_entry REALLOC 32 16) 16 ∧
    (VerifyTrace true ([mk_entry MALLOC 8 0] ++ mk_entry REALLOC 32 16 :: [mk_entry FREE 32 0])).log =
      [Violation.unknown_free ([mk_entry MALLOC 8 0].length + 1) 16 (mk_entry REALLOC 32 16) true] ∧
    unknown_free_count
      (VerifyTrace true ([mk_entry MALLOC 8 0] ++ mk_entry REALLOC 32 16 :: [mk_entry FREE 32 0])).log = 1 ∧
    (VerifyTrace true ([mk_entry MALLOC 8 0] ++ mk_entry REALLOC 32 16 :: [mk_entry FREE 32 0])).found_error = true ∧
    (VerifyTrace true ([mk_entry MALLOC 8 0] ++ mk_entry REALLOC 32 16 :: [mk_entry FREE 32 0])).entries =
      [mk_entry MALLOC 8 0] ++ mk_entry REALLOC 32 16 :: [mk_entry FREE 32 0] :=
  ⟨by decide, by decide,
    single_unknown_release_reported_once true [mk_entry MALLOC 8 0] [mk_entry FREE 32 0]
      (mk_entry REALLOC 32 16) 16 (by decide) (by decide) (by decide) (by decide)⟩

/-- C2 (counterexample): in the trace FREE 16, FREE 16 exactly one address, 16, is
released before it was ever allocated and never allocated later, and the scan
reports two releases of an unknown address, with either value of
attempt_repair. -/
theorem one_unknown_address_released_twice :
    (∃! p, released_never_allocated [mk_entry FREE 16 0, mk_entry FREE 16 0] p) ∧
    unknown_free_count (VerifyTrace false [mk_entry FREE 16 0, mk_entry FREE 16 0]).log = 2 ∧
    unknown_free_count (VerifyTrace true [mk_entry FREE 16 0, mk_entry FREE 16 0]).log = 2 := by
  refine ⟨⟨16, ?_, ?_⟩, by decide, by decide⟩
  · refine ⟨by decide, ⟨mk_entry FREE 16 0, by simp, by decide⟩, by decide⟩
  · rintro y ⟨_, ⟨e, he, hrel⟩, _⟩
    simp at he
    subst he
    rcases hrel with ⟨_, h⟩ | ⟨h, _⟩
    · exact h.symm
    · exact absurd h (by decide)

/-! ### Repair of a duplicate raised by a REALLOC -/

/-- C3 (the code at the failing input): on the trace MALLOC 1, MALLOC 2,
REALLOC (2 to 1), MALLOC 2, FREE 1 the scan with attempt_repair reports exactly
one violation, the duplicate address 1 at line 3, repairs it by the swap with
position 4 and ends with error_repaired set; the old pointer 2 of the REALLOC
was erased from the map before the swap, so the MALLOC 2 at line 4 passed, and
a fresh scan of the resulting entries reports the duplicate address 2 there. -/
theorem realloc_duplicate_repair_leaves_invalid_trace :
    (VerifyTrace true realloc_duplicate_trace).log =
      [Violation.duplicate 3 1 1 (mk_entry REALLOC 1 2) (some (mk_entry MALLOC 1 0)) (some 4)] ∧
    (VerifyTrace true realloc_duplicate_trace).error_repaired = true ∧
    (VerifyTrace true realloc_duplicate_trace).entries =
      [mk_entry MALLOC 1 0, mk_entry MALLOC 2 0, mk_entry FREE 1 0, mk_entry MALLOC 2 0,
       mk_entry REALLOC 1 2] ∧
    (VerifyTrace false (VerifyTrace true realloc_duplicate_trace).entries).found_error = true ∧
    (VerifyTrace false (VerifyTrace true realloc_duplicate_trace).entries).log =
      [Violation.duplicate 4 2 2 (mk_entry MALLOC 2 0) (some (mk_entry MALLOC 2 0)) none] := by
  decide

/-! ### The loop, the search and the swap -/

theorem scan_induction (ar : Bool) (P : Nat → State → Prop)
    (hstep : ∀ i s, P i s → P (i + 1) (step ar i s)) :
    ∀ (n i : Nat) (s : State), P i s → P (i + n) (scan ar n i s) := by
  intro n
  induction n with
  | zero => intro i s h; simpa [scan] using h
  | succ n ih =>
    intro i s h
    have := ih (i + 1) (step ar i s) (hstep i s h)
    simp only [scan]
    have e : i + (n + 1) = i + 1 + n := by omega
    rw [e]
    exact this

theorem find_free_some (ptr : Nat) (l : List Entry) : ∀ (j k : Nat),
    find_free ptr l j = some k →
    ∃ n e, k = j + n ∧ l[n]? = some e ∧ e.type = TypeEnum.FREE ∧ e.ptr = ptr ∧
      ∀ m e1, m < n → l[m]? = some e1 → ¬ (e1.type = TypeEnum.FREE ∧ e1.ptr = ptr) := by
  induction l with
  | nil => intro j k h; simp [find_free] at h
  | cons x xs ih =>
    intro j k h
    by_cases hx : x.type = TypeEnum.FREE ∧ x.ptr = ptr
    · simp [find_free, hx] at h
      subst h
      exact ⟨0, x, by simp, by simp, hx.1, hx.2, by intro m e1 hm; omega⟩
    · have h2 : find_free ptr xs (j + 1) = some k := by
        simp only [find_free] at h
        rw [if_neg hx] at h
        exact h
      obtain ⟨n, e, h1, h3, h4, h5, h6⟩ := ih (j + 1) k h2
      refine ⟨n + 1, e, by omega, by simpa using h3, h4, h5, ?_⟩
      intro m e1 hm hget
      cases m with
      | zero =>
        simp at hget
        subst hget
        exact hx
      | succ m =>
        simp at hget
        exact h6 m e1 (by omega) hget

theorem find_free_none (ptr : Nat) (l : List Entry) : ∀ (j : Nat),
    find_free ptr l j = none ↔ ∀ e ∈ l, ¬ (e.type = TypeEnum.FREE ∧ e.ptr = ptr) := by
  induction l with
  | nil => intro j; simp [find_free]
  | cons x xs ih =>
    intro j
    by_cases hx : x.type = TypeEnum.FREE ∧ x.ptr = ptr
    · simp [find_free, hx]
    · simp only [find_free]
      rw [if_neg hx, ih (j + 1)]
      simp only [List.mem_cons, forall_eq_or_imp]
      exact ⟨fun h => ⟨hx, h⟩, fun h => h.2⟩

/-- What the search of the scan finds, in terms of the entry array. -/
theorem find_free_drop_some (ptr : Nat) (es : List Entry) (i k : Nat)
    (h : find_free ptr (es.drop (i + 1)) (i + 1) = some k) :
    i < k ∧ ∃ e, es[k]? = some e ∧ e.type = TypeEnum.FREE ∧ e.ptr = ptr ∧
      ∀ m e1, i < m → m < k → es[m]? = some e1 → ¬ (e1.type = TypeEnum.FREE ∧ e1.ptr = ptr) := by
  obtain ⟨n, e, h1, h3, h4, h5, h6⟩ := find_free_some ptr _ _ _ h
  subst h1
  refine ⟨by omega, e, ?_, h4, h5, ?_⟩
  · simpa [List.getElem?_drop] using h3
  · intro m e1 hm1 hm2 hget
    have : (es.drop (i + 1))[m - (i + 1)]? = some e1 := by
      rw [List.getElem?_drop]
      have : i + 1 + (m - (i + 1)) = m := by omega
      rw [this]; exact hget
    exact h6 (m - (i + 1)) e1 (by omega) this

theorem swap_entries_length (es : List Entry) (i j : Nat) :
    (swap_entries es i j).length = es.length := by
  unfold swap_entries
  split <;> simp

theorem swap_entries_eq (es : List Entry) (i j : Nat) (a b : Entry)
    (ha : es[i]? = some a) (hb : es[j]? = some b) :
    swap_entries es i j = (es.set i b).set j a := by
  simp [swap_entries, ha, hb]

theorem swap_entries_getElem_left (es : List Entry) (i j : Nat) (a b : Entry)
    (ha : es[i]? = some a) (hb : es[j]? = some b) (hij : i ≠ j) :
    (swap_entries es i j)[i]? = some b := by
  rw [swap_entries_eq es i j a b ha hb]
  have hi : i < es.length := (List.getElem?_eq_some_iff.1 ha).1
  rw [List.getElem?_set_ne (fun h => hij h.symm), List.getElem?_set_self]
  simp [hi]

theorem swap_entries_getElem_right (es : List Entry) (i j : Nat) (a b : Entry)
    (ha : es[i]? = some a) (hb : es[j]? = some b) :
    (swap_entries es i j)[j]? = some a := by
  rw [swap_entries_eq es i j a b ha hb]
  have hj : j < es.length := (List.getElem?_eq_some_iff.1 hb).1
  rw [List.getElem?_set_self]
  simp [hj]

theorem swap_entries_getElem_other (es : List Entry) (i j k : Nat)
    (hi : k ≠ i) (hj : k ≠ j) :
    (swap_entries es i j)[k]? = es[k]? := by
  unfold swap_entries
  split
  · rw [List.getElem?_set_ne (fun h => hj h.symm), List.getElem?_set_ne (fun h => hi h.symm)]
  · rfl

/-! ### What a step leaves alone -/

theorem release_entries (ar : Bool) (i : Nat) (e : Entry) (addr : Nat) (s : State) :
    (release ar i e addr s).entries = s.entries := by
  unfold release
  split
  · split <;> rfl
  · rfl

theorem release_error_repaired (ar : Bool) (i : Nat) (e : Entry) (addr : Nat) (s : State) :
    (release ar i e addr s).error_repaired = s.error_repaired := by
  unfold release
  split
  · split <;> rfl
  · rfl

theorem release_phase_entries (ar : Bool) (i : Nat) (e : Entry) (s : State) :
    (release_phase ar i e s).entries = s.entries := by
  unfold release_phase
  split <;> simp [release_entries]

theorem release_phase_error_repaired (ar : Bool) (i : Nat) (e : Entry) (s : State) :
    (release_phase ar i e s).error_repaired = s.error_repaired := by
  unfold release_phase
  split <;> simp [release_error_repaired]

theorem release_log (ar : Bool) (i : Nat) (e : Entry) (addr : Nat) (s : State) :
    ∃ l, (release ar i e addr s).log = s.log ++ l := by
  unfold release
  split
  · split
    · exact ⟨_, rfl⟩
    · exact ⟨[], by simp⟩
  · exact ⟨[], by simp⟩

theorem release_phase_log (ar : Bool) (i : Nat) (e : Entry) (s : State) :
    ∃ l, (release_phase ar i e s).log = s.log ++ l := by
  unfold release_phase
  split
  · exact release_log ar i e _ s
  · exact release_log ar i e _ s
  · exact ⟨[], by simp⟩

theorem register_log (ar : Bool) (i : Nat) (e : Entry) (ptr : Nat) (s : State) :
    ∃ l, (register ar i e ptr s).log = s.log ++ l := by
  unfold register
  split
  · split
    · split
      · split
        · exact ⟨_, rfl⟩
        · exact ⟨_, rfl⟩
      · exact ⟨_, rfl⟩
    · exact ⟨[], by simp⟩
  · exact ⟨[], by simp⟩

theorem step_log (ar : Bool) (i : Nat) (s : State) :
    ∃ l, (step ar i s).log = s.log ++ l := by
  unfold step
  split
  · exact ⟨[], by simp⟩
  · rename_i e _
    obtain ⟨l1, h1⟩ := release_phase_log ar i e s
    obtain ⟨l2, h2⟩ := register_log ar i e (result_ptr e) (release_phase ar i e s)
    exact ⟨l1 ++ l2, by rw [h2, h1, List.append_assoc]⟩

theorem scan_log (ar : Bool) : ∀ (n i : Nat) (s : State),
    ∃ l, (scan ar n i s).log = s.log ++ l := by
  intro n
  induction n with
  | zero => intro i s; exact ⟨[], by simp [scan]⟩
  | succ n ih =>
    intro i s
    obtain ⟨l1, h1⟩ := step_log ar i s
    obtain ⟨l2, h2⟩ := ih (i + 1) (step ar i s)
    exact ⟨l1 ++ l2, by simp only [scan]; rw [h2, h1, List.append_assoc]⟩

theorem register_length (ar : Bool) (i : Nat) (e : Entry) (ptr : Nat) (s : State) :
    (register ar i e ptr s).entries.length = s.entries.length := by
  unfold register
  split
  · split
    · split
      · split
        · simp [swap_entries_length]
        · rfl
      · rfl
    · rfl
  · rfl

theorem step_length (ar : Bool) (i : Nat) (s : State) :
    (step ar i s).entries.length = s.entries.length := by
  unfold step
  split
  · rfl
  · rw [register_length, release_phase_entries]

theorem scan_length (ar : Bool) : ∀ (n i : Nat) (s : State),
    (scan ar n i s).entries.length = s.entries.length := by
  intro n
  induction n with
  | zero => intro i s; rfl
  | succ n ih => intro i s; simp only [scan]; rw [ih, step_length]

theorem register_getElem_lt (ar : Bool) (i k : Nat) (e : Entry) (ptr : Nat) (s : State)
    (hk : k < i) : (register ar i e ptr s).entries[k]? = s.entries[k]? := by
  unfold register
  split
  · split
    · split
      · split
        · rename_i j hj
          obtain ⟨hij, _⟩ := find_free_drop_some ptr s.entries i j hj
          exact swap_entries_getElem_other s.entries i j k (by omega) (by omega)
        · rfl
      · rfl
    · rfl
  · rfl

theorem step_getElem_lt (ar : Bool) (i k : Nat) (s : State) (hk : k < i) :
    (step ar i s).entries[k]? = s.entries[k]? := by
  unfold step
  split
  · rfl
  · rw [register_getElem_lt ar i k _ _ _ hk, release_phase_entries]

theorem scan_getElem_lt (ar : Bool) : ∀ (n i k : Nat) (s : State), k < i →
    (scan ar n i s).entries[k]? = s.entries[k]? := by
  intro n
  induction n with
  | zero => intro i k s _; rfl
  | succ n ih =>
    intro i k s hk
    simp only [scan]
    rw [ih (i + 1) k _ (by omega), step_getElem_lt ar i k s hk]

/-- Only the repairing scan changes the entries. -/
theorem register_entries_no_repair (i : Nat) (e : Entry) (ptr : Nat) (s : State) :
    (register false i e ptr s).entries = s.entries := by
  unfold register
  split
  · split
    · simp
    · rfl
  · rfl

theorem step_entries_no_repair (i : Nat) (s : State) :
    (step false i s).entries = s.entries := by
  unfold step
  split
  · rfl
  · rw [register_entries_no_repair, release_phase_entries]

theorem scan_entries_no_repair : ∀ (n i : Nat) (s : State),
    (scan false n i s).entries = s.entries := by
  intro n
  induction n with
  | zero => intro i s; rfl
  | succ n ih => intro i s; simp only [scan]; rw [ih, step_entries_no_repair]

/-! ### The scan permutes the entries -/

theorem perm_set_cons (l : List Entry) : ∀ (j : Nat) (b x : Entry), l[j]? = some b →
    List.Perm (b :: l.set j x) (x :: l) := by
  induction l with
  | nil => intro j b x h; simp at h
  | cons y ys ih =>
    intro j b x h
    cases j with
    | zero =>
      simp at h
      subst h
      simpa using List.Perm.swap x y ys
    | succ j =>
      simp at h
      have h1 := ih j b x h
      simp only [List.set_cons_succ]
      exact (List.Perm.swap y b _).trans ((List.Perm.cons y h1).trans (List.Perm.swap x y ys))

theorem perm_set_set (l : List Entry) : ∀ (i j : Nat) (a b : Entry), i < j →
    l[i]? = some a → l[j]? = some b → List.Perm ((l.set i b).set j a) l := by
  induction l with
  | nil => intro i j a b _ h; simp at h
  | cons y ys ih =>
    intro i j a b hij ha hb
    cases j with
    | zero => omega
    | succ j =>
      cases i with
      | zero =>
        simp at ha hb
        subst ha
        simpa using perm_set_cons ys j b y hb
      | succ i =>
        simp at ha hb
        simpa using List.Perm.cons y (ih i j a b (by omega) ha hb)

theorem set_getElem_self (l : List Entry) (i : Nat) (a : Entry) (h : l[i]? = some a) :
    l.set i a = l := by
  have hi : i < l.length := (List.getElem?_eq_some_iff.1 h).1
  apply List.ext_getElem?
  intro k
  by_cases hk : k = i
  · subst hk; rw [List.getElem?_set_self hi]; exact h.symm
  · rw [List.getElem?_set_ne (fun h => hk h.symm)]

theorem swap_entries_perm (es : List Entry) (i j : Nat) :
    List.Perm (swap_entries es i j) es := by
  unfold swap_entries
  split
  · rename_i a b ha hb
    rcases Nat.lt_trichotomy i j with hij | hij | hij
    · exact perm_set_set es i j a b hij ha hb
    · subst hij
      have hab : a = b := by rw [ha] at hb; exact Option.some.inj hb
      subst hab
      rw [set_getElem_self es i a ha, set_getElem_self es i a ha]
    · have hc : (es.set i b).set j a = (es.set j a).set i b :=
        List.set_comm b a es (by omega)
      rw [hc]
      exact perm_set_set es j i b a hij hb ha
  · exact List.Perm.refl _

theorem register_perm (ar : Bool) (i : Nat) (e : Entry) (ptr : Nat) (s : State) :
    List.Perm (register ar i e ptr s).entries s.entries := by
  unfold register
  split
  · split
    · split
      · split
        · exact swap_entries_perm _ _ _
        · exact List.Perm.refl _
      · exact List.Perm.refl _
    · exact List.Perm.refl _
  · exact List.Perm.refl _

theorem step_perm (ar : Bool) (i : Nat) (s : State) :
    List.Perm (step ar i s).entries s.entries := by
  unfold step
  split
  · exact List.Perm.refl _
  · rename_i e _
    have := register_perm ar i e (result_ptr e) (release_phase ar i e s)
    rw [release_phase_entries] at this
    exact this

theorem scan_perm (ar : Bool) : ∀ (n i : Nat) (s : State),
    List.Perm (scan ar n i s).entries s.entries := by
  intro n
  induction n with
  | zero => intro i s; exact List.Perm.refl _
  | succ n ih => intro i s; exact (ih (i + 1) _).trans (step_perm ar i s)

/-- C8: with either value of attempt_repair the entries after the scan are as many
as the input and a permutation of it (every entry, with all its fields, occurs
as often as in the input); without attempt_repair they are the input itself. -/
theorem scan_permutes_entries (attempt_repair : Bool) (entries : List Entry) :
    (VerifyTrace attempt_repair entries).entries.length = entries.length ∧
    List.Perm (VerifyTrace attempt_repair entries).entries entries ∧
    (∀ e, (VerifyTrace attempt_repair entries).entries.count e = entries.count e) ∧
    (VerifyTrace false entries).entries = entries := by
  refine ⟨?_, ?_, ?_, ?_⟩
  · simpa [VerifyTrace, init_state] using scan_length attempt_repair entries.length 0 (init_state entries)
  · simpa [VerifyTrace, init_state] using scan_perm attempt_repair entries.length 0 (init_state entries)
  · intro e
    have h := scan_perm attempt_repair entries.length 0 (init_state entries)
    simpa [VerifyTrace, init_state] using h.count_eq e
  · simpa [VerifyTrace, init_state] using scan_entries_no_repair entries.length 0 (init_state entries)

/-! ### How many swaps one scan makes -/

theorem diff_count_set (a : List Entry) : ∀ (b : List Entry) (i : Nat) (x : Entry),
    diff_count a (b.set i x) ≤ diff_count a b + 1 := by
  induction a with
  | nil => intro b i x; simp [diff_count]
  | cons y ys ih =>
    intro b i x
    cases b with
    | nil => simp [diff_count]
    | cons z zs =>
      cases i with
      | zero =>
        simp only [List.set_cons_zero, diff_count, List.zip_cons_cons, List.countP_cons]
        split <;> split <;> omega
      | succ i =>
        have := ih zs i x
        simp only [diff_count] at this
        simp only [List.set_cons_succ, diff_count, List.zip_cons_cons, List.countP_cons]
        omega

theorem diff_count_swap (a es : List Entry) (i j : Nat) :
    diff_count a (swap_entries es i j) ≤ diff_count a es + 2 := by
  unfold swap_entries
  split
  · rename_i x y _ _
    have h1 := diff_count_set a es i y
    have h2 := diff_count_set a (es.set i y) j x
    omega
  · omega

theorem release_swap_count (ar : Bool) (i : Nat) (e : Entry) (addr : Nat) (s : State) :
    swap_count (release ar i e addr s).log = swap_count s.log ∧
    duplicate_count (release ar i e addr s).log = duplicate_count s.log := by
  unfold release
  split
  · split
    · simp [swap_count, duplicate_count, List.countP_append]
    · simp
  · simp

theorem release_phase_swap_count (ar : Bool) (i : Nat) (e : Entry) (s : State) :
    swap_count (release_phase ar i e s).log = swap_count s.log ∧
    duplicate_count (release_phase ar i e s).log = duplicate_count s.log := by
  unfold release_phase
  split
  · exact release_swap_count ar i e _ s
  · exact release_swap_count ar i e _ s
  · simp

theorem register_swap_count (ar : Bool) (i : Nat) (e : Entry) (ptr : Nat) (s : State) :
    ((register ar i e ptr s).entries = s.entries ∧
      swap_count (register ar i e ptr s).log = swap_count s.log ∧
      duplicate_count s.log ≤ duplicate_count (register ar i e ptr s).log) ∨
    (∃ j, (register ar i e ptr s).entries = swap_entries s.entries i j ∧
      swap_count (register ar i e ptr s).log = swap_count s.log + 1 ∧
      duplicate_count (register ar i e ptr s).log = duplicate_count s.log + 1) := by
  unfold register
  split
  · split
    · split
      · split
        · rename_i j _
          exact Or.inr ⟨j, rfl, by simp [swap_count, List.countP_append],
            by simp [duplicate_count, List.countP_append]⟩
        · exact Or.inl ⟨rfl, by simp [swap_count, List.countP_append],
            by simp [duplicate_count, List.countP_append]⟩
      · exact Or.inl ⟨rfl, by simp [swap_count, List.countP_append],
          by simp [duplicate_count, List.countP_append]⟩
    · exact Or.inl ⟨rfl, rfl, le_refl _⟩
  · exact Or.inl ⟨rfl, rfl, le_refl _⟩

theorem step_swap_count (ar : Bool) (a : List Entry) (i : Nat) (s : State)
    (h : diff_count a s.entries ≤ 2 * swap_count s.log ∧
      swap_count s.log ≤ duplicate_count s.log) :
    diff_count a (step ar i s).entries ≤ 2 * swap_count (step ar i s).log ∧
      swap_count (step ar i s).log ≤ duplicate_count (step ar i s).log := by
  unfold step
  split
  · exact h
  · rename_i e _
    obtain ⟨r1, r2⟩ := release_phase_swap_count ar i e s
    have r3 := release_phase_entries ar i e s
    rcases register_swap_count ar i e (result_ptr e) (release_phase ar i e s) with
      ⟨g1, g2, g3⟩ | ⟨j, g1, g2, g3⟩
    · rw [g1, g2, r1, r3]
      exact ⟨h.1, by omega⟩
    · rw [g1, g2, g3, r1, r2, r3]
      have := diff_count_swap a s.entries i j
      omega

theorem diff_count_self (a : List Entry) : diff_count a a = 0 := by
  induction a with
  | nil => simp [diff_count]
  | cons x xs ih =>
    simp only [diff_count] at ih
    simp only [diff_count, List.zip_cons_cons, List.countP_cons, ih]
    simp

/-- C9 (counterexample): on MALLOC 1, MALLOC 1, FREE 1, MALLOC 2, MALLOC 2, FREE 2
one scan with attempt_repair repairs both duplicates: it makes two swaps and
the result differs from the input in four positions. -/
theorem two_duplicates_two_swaps :
    swap_count (VerifyTrace true two_duplicates_trace).log = 2 ∧
    diff_count two_duplicates_trace (VerifyTrace true two_duplicates_trace).entries = 4 ∧
    (VerifyTrace true two_duplicates_trace).entries =
      [mk_entry MALLOC 1 0, mk_entry FREE 1 0, mk_entry MALLOC 1 0,
       mk_entry MALLOC 2 0, mk_entry FREE 2 0, mk_entry MALLOC 2 0] := by
  decide

/-! ### The flags at the end of the scan -/

theorem release_flags (ar : Bool) (i : Nat) (e : Entry) (addr : Nat) (s : State)
    (h1 : s.error_repaired = last_duplicate_swapped s.log)
    (h2 : s.log ≠ [] → s.found_error = true) :
    (release ar i e addr s).error_repaired = last_duplicate_swapped (release ar i e addr s).log ∧
    ((release ar i e addr s).log ≠ [] → (release ar i e addr s).found_error = true) := by
  unfold release
  split
  · split
    · simp [last_duplicate_swapped, List.foldl_append] at h1 ⊢
      exact h1
    · exact ⟨h1, h2⟩
  · exact ⟨h1, h2⟩

theorem release_phase_flags (ar : Bool) (i : Nat) (e : Entry) (s : State)
    (h1 : s.error_repaired = last_duplicate_swapped s.log)
    (h2 : s.log ≠ [] → s.found_error = true) :
    (release_phase ar i e s).error_repaired = last_duplicate_swapped (release_phase ar i e s).log ∧
    ((release_phase ar i e s).log ≠ [] → (release_phase ar i e s).found_error = true) := by
  unfold release_phase
  split
  · exact release_flags ar i e _ s h1 h2
  · exact release_flags ar i e _ s h1 h2
  · exact ⟨h1, h2⟩

theorem register_flags (i : Nat) (e : Entry) (ptr : Nat) (s : State)
    (h1 : s.error_repaired = last_duplicate_swapped s.log)
    (h2 : s.log ≠ [] → s.found_error = true) :
    (register true i e ptr s).error_repaired = last_duplicate_swapped (register true i e ptr s).log ∧
    ((register true i e ptr s).log ≠ [] → (register true i e ptr s).found_error = true) := by
  unfold register
  split
  · split
    · simp only [if_true]
      split
      · simp [last_duplicate_swapped, List.foldl_append]
      · simp [last_duplicate_swapped, List.foldl_append]
    · exact ⟨h1, h2⟩
  · exact ⟨h1, h2⟩

theorem step_flags (i : Nat) (s : State)
    (h : s.error_repaired = last_duplicate_swapped s.log ∧
      (s.log ≠ [] → s.found_error = true)) :
    (step true i s).error_repaired = last_duplicate_swapped (step true i s).log ∧
    ((step true i s).log ≠ [] → (step true i s).found_error = true) := by
  unfold step
  split
  · exact h
  · rename_i e _
    obtain ⟨r1, r2⟩ := release_phase_flags true i e s h.1 h.2
    exact register_flags i e (result_ptr e) _ r1 r2

/-- The flag error_repaired after the repairing scan is the outcome of the last
repair attempt, and found_error is set as soon as something was logged. -/
theorem scan_flags (entries : List Entry) :
    (VerifyTrace true entries).error_repaired =
      last_duplicate_swapped (VerifyTrace true entries).log ∧
    ((VerifyTrace true entries).log ≠ [] → (VerifyTrace true entries).found_error = true) :=
  scan_induction true
    (fun _ s => s.error_repaired = last_duplicate_swapped s.log ∧
      (s.log ≠ [] → s.found_error = true))
    (fun i s hs => step_flags i s hs) entries.length 0 (init_state entries)
    (by simp [init_state, last_duplicate_swapped])

/-- C10 (amended): when the last duplicate violation of the scan with
attempt_repair was repaired by a swap, found_error and error_repaired are set
at the end of the scan and the entries are handed to WriteRepairEntries. A
swap earlier in the scan is not enough: every duplicate resets the flag. -/
theorem last_repair_decides_report (entries : List Entry)
    (h : last_duplicate_swapped (VerifyTrace true entries).log = true) :
    (VerifyTrace true entries).found_error = true ∧
    (VerifyTrace true entries).error_repaired = true ∧
    final_report true (VerifyTrace true entries) =
      Report.repair_written (VerifyTrace true entries).entries := by
  obtain ⟨h1, h2⟩ := scan_flags entries
  have hne : (VerifyTrace true entries).log ≠ [] := by
    intro hc
    rw [hc] at h
    simp [last_duplicate_swapped] at h
  have hfe := h2 hne
  have her : (VerifyTrace true entries).error_repaired = true := by rw [h1, h]
  exact ⟨hfe, her, by simp [final_report, hfe, her]⟩

/-- C10 (witness): on MALLOC 1, MALLOC 1, FREE 1, MALLOC 2, MALLOC 2, FREE 2 the
last duplicate was swapped and the entries are handed to WriteRepairEntries. -/
theorem last_repair_decides_report_witness :
    last_duplicate_swapped (VerifyTrace true two_duplicates_trace).log = true ∧
    (VerifyTrace true two_duplicates_trace).found_error = true ∧
    (VerifyTrace true two_duplicates_trace).error_repaired = true ∧
    final_report true (VerifyTrace true two_duplicates_trace) =
      Report.repair_written (VerifyTrace true two_duplicates_trace).entries :=
  ⟨by decide, last_repair_decides_report two_duplicates_trace (by decide)⟩

/-- C10 (counterexample): on MALLOC 1, MALLOC 1, FREE 1, MALLOC 2, MALLOC 2 the scan
with attempt_repair finds violations and one swap succeeds (the entries are
changed), but the second duplicate resets error_repaired: the flag is false at
the end and the repair is reported as failed. -/
theorem swap_succeeded_but_repair_reported_failed :
    (VerifyTrace true repaired_then_unrepairable_trace).found_error = true ∧
    swap_count (VerifyTrace true repaired_then_unrepairable_trace).log = 1 ∧
    (VerifyTrace true repaired_then_unrepairable_trace).entries ≠
      repaired_then_unrepairable_trace ∧
    (VerifyTrace true repaired_then_unrepairable_trace).error_repaired = false ∧
    final_report true (VerifyTrace true repaired_then_unrepairable_trace) =
      Report.repair_failed := by
  decide

/-! ### Address 0 -/

theorem release_zero (ar : Bool) (i : Nat) (e : Entry) (s : State) :
    release ar i e 0 s = s := by
  simp [release]

theorem register_zero (ar : Bool) (i : Nat) (e : Entry) (s : State) :
    register ar i e 0 s = s := by
  simp [register]

theorem release_keys_subset (ar : Bool) (i : Nat) (e : Entry) (addr : Nat) (s : State) (a : Nat)
    (h : a ∈ live_keys (release ar i e addr s).live_ptrs) : a ∈ live_keys s.live_ptrs := by
  unfold release at h
  split at h
  · split at h
    · exact h
    · exact ((mem_live_keys_erase _ _ _).1 h).1
  · exact h

theorem release_phase_keys_subset (ar : Bool) (i : Nat) (e : Entry) (s : State) (a : Nat)
    (h : a ∈ live_keys (release_phase ar i e s).live_ptrs) : a ∈ live_keys s.live_ptrs := by
  unfold release_phase at h
  split at h
  · exact release_keys_subset ar i e _ s a h
  · exact release_keys_subset ar i e _ s a h
  · exact h

theorem register_keys (ar : Bool) (i : Nat) (e : Entry) (ptr : Nat) (s : State) (a : Nat)
    (h : a ∈ live_keys (register ar i e ptr s).live_ptrs) :
    a ∈ live_keys s.live_ptrs ∨ (a = ptr ∧ ptr ≠ 0) := by
  unfold register at h
  split at h
  · rename_i hp
    split at h
    · split at h
      · split at h
        · exact Or.inl ((mem_live_keys_erase _ _ _).1 h).1
        · exact Or.inl h
      · exact Or.inl h
    · rcases (mem_live_keys_insert _ _ _ _).1 h with h1 | h1
      · exact Or.inr ⟨h1, hp⟩
      · exact Or.inl h1
  · exact Or.inl h

theorem step_zero_not_live (ar : Bool) (i : Nat) (s : State)
    (h : 0 ∉ live_keys s.live_ptrs) : 0 ∉ live_keys (step ar i s).live_ptrs := by
  unfold step
  split
  · exact h
  · rename_i e _
    intro hc
    rcases register_keys ar i e (result_ptr e) _ 0 hc with h1 | ⟨h1, h2⟩
    · exact h (release_phase_keys_subset ar i e s 0 h1)
    · exact h2 h1.symm

/-- C6: with either value of attempt_repair, address 0 is not a key of the
live-pointer map after any number of steps of the scan, nor at its end. A FREE
of address 0 leaves the whole state as it is; a REALLOC with old pointer 0
releases nothing and raises nothing (it only registers its address); an
allocation entry with address 0 registers nothing and raises nothing (a
REALLOC among them only releases its old pointer). -/
theorem address_zero_never_live (attempt_repair : Bool) (entries : List Entry) :
    (∀ k, 0 ∉ live_keys (scan attempt_repair k 0 (init_state entries)).live_ptrs) ∧
    0 ∉ live_keys (VerifyTrace attempt_repair entries).live_ptrs ∧
    (∀ i s e, s.entries[i]? = some e → e.type = FREE → e.ptr = 0 →
      step attempt_repair i s = s) ∧
    (∀ i s e, s.entries[i]? = some e → e.type = REALLOC → e.old_ptr = 0 →
      step attempt_repair i s = register attempt_repair i e e.ptr s) ∧
    (∀ i s e, s.entries[i]? = some e → e.type ≠ FREE → e.type ≠ THREAD_DONE → e.ptr = 0 →
      step attempt_repair i s = release_phase attempt_repair i e s ∧
      (e.type = REALLOC → e.old_ptr = 0 → step attempt_repair i s = s) ∧
      (e.type ≠ REALLOC → step attempt_repair i s = s)) := by
  have hscan : ∀ k, 0 ∉ live_keys (scan attempt_repair k 0 (init_state entries)).live_ptrs := by
    intro k
    exact scan_induction attempt_repair (fun _ s => 0 ∉ live_keys s.live_ptrs)
      (fun i s hs => step_zero_not_live attempt_repair i s hs) k 0 (init_state entries)
      (by simp [init_state, live_keys])
  refine ⟨hscan, hscan entries.length, ?_, ?_, ?_⟩
  · intro i s e he ht hp
    simp [step, he, release_phase, result_ptr, ht, hp, release_zero, register_zero]
  · intro i s e he ht hp
    simp [step, he, release_phase, result_ptr, ht, hp, release_zero]
  · intro i s e he ht1 ht2 hp
    have hres : result_ptr e = 0 := by
      unfold result_ptr
      cases ht : e.type <;> simp [hp]
    refine ⟨by simp [step, he, hres, register_zero], ?_, ?_⟩
    · intro ht ho
      simp [step, he, hres, register_zero, release_phase, ht, ho, release_zero]
    · intro ht
      cases ht3 : e.type <;> simp_all [step, register_zero, release_phase]

/-- C6 (witness): address 0 is not live after FREE 0, REALLOC (0 to 0), MALLOC 0,
REALLOC (0 to 16), and the step on a FREE of 0 is the identity. -/
theorem address_zero_never_live_witness :
    0 ∉ live_keys (VerifyTrace true [mk_entry FREE 0 0, mk_entry REALLOC 0 0,
      mk_entry MALLOC 0 0, mk_entry REALLOC 16 0]).live_ptrs ∧
    step true 0 (init_state [mk_entry FREE 0 0]) = init_state [mk_entry FREE 0 0] :=
  ⟨(address_zero_never_live true [mk_entry FREE 0 0, mk_entry REALLOC 0 0,
      mk_entry MALLOC 0 0, mk_entry REALLOC 16 0]).2.1,
   (address_zero_never_live true []).2.2.1 0 (init_state [mk_entry FREE 0 0])
      (mk_entry FREE 0 0) (by decide) (by decide) (by decide)⟩

/-! ### Duplicates that cannot be repaired -/

theorem register_no_free_after (i : Nat) (e : Entry) (ptr : Nat) (s : State)
    (hs : s.error_repaired = false)
    (h : ∀ v ∈ (register true i e ptr s).log, no_free_after s.entries v) :
    (register true i e ptr s).entries = s.entries ∧
    (register true i e ptr s).error_repaired = false := by
  by_cases hp : ptr = 0
  · simp [register, hp, hs]
  · cases hold : live_find s.live_ptrs ptr with
    | none => simp [register, hp, hold, hs]
    | some old =>
      cases hj : find_free ptr (s.entries.drop (i + 1)) (i + 1) with
      | none => simp [register, hp, hold, hj]
      | some j =>
        exfalso
        have h1 := h (Violation.duplicate (i + 1) ptr old.2 e s.entries[old.1]? (some j))
          (by simp [register, hp, hold, hj])
        simp only [no_free_after] at h1
        have h2 := (find_free_none ptr (s.entries.drop (i + 1)) (i + 1)).2 h1
        rw [h2] at hj
        exact absurd hj (by simp)

theorem step_no_free_after (i : Nat) (s : State)
    (hs : s.error_repaired = false)
    (h : ∀ v ∈ (step true i s).log, no_free_after s.entries v) :
    (step true i s).entries = s.entries ∧ (step true i s).error_repaired = false := by
  unfold step at h ⊢
  split
  · exact ⟨rfl, hs⟩
  · rename_i e he
    simp only [he] at h
    have h1 := register_no_free_after i e (result_ptr e) (release_phase true i e s)
      (by rw [release_phase_error_repaired]; exact hs)
      (by rw [release_phase_entries]; exact h)
    rw [release_phase_entries] at h1
    exact h1

theorem scan_no_free_after : ∀ (n i : Nat) (s : State), s.error_repaired = false →
    (∀ v ∈ (scan true n i s).log, no_free_after s.entries v) →
    (scan true n i s).entries = s.entries ∧ (scan true n i s).error_repaired = false := by
  intro n
  induction n with
  | zero => intro i s hs _; exact ⟨rfl, hs⟩
  | succ n ih =>
    intro i s hs h
    simp only [scan] at h ⊢
    obtain ⟨l, hl⟩ := scan_log true n (i + 1) (step true i s)
    obtain ⟨h1, h2⟩ := step_no_free_after i s hs
      (fun v hv => h v (by rw [hl]; exact List.mem_append_left l hv))
    obtain ⟨g1, g2⟩ := ih (i + 1) (step true i s) h2 (by rw [h1]; exact h)
    exact ⟨g1.trans h1, g2⟩

/-- C4: when no duplicate violation of the scan with attempt_repair is followed, at
a later position of the trace, by a FREE of the duplicated address, the scan
returns the entries unchanged and error_repaired is false at its end; as soon
as a violation was printed (a duplicate in particular), found_error is set and
the repair is reported as failed. -/
theorem duplicates_without_later_free_are_not_repaired (entries : List Entry)
    (h : ∀ v ∈ (VerifyTrace true entries).log, no_free_after entries v) :
    (VerifyTrace true entries).entries = entries ∧
    (VerifyTrace true entries).error_repaired = false ∧
    ((VerifyTrace true entries).log ≠ [] →
      (VerifyTrace true entries).found_error = true ∧
      final_report true (VerifyTrace true entries) = Report.repair_failed) := by
  obtain ⟨h1, h2⟩ := scan_no_free_after entries.length 0 (init_state entries) rfl h
  have her : (VerifyTrace true entries).error_repaired = false := h2
  refine ⟨h1, her, ?_⟩
  intro hne
  have hfe := (scan_flags entries).2 hne
  exact ⟨hfe, by simp [final_report, hfe, her]⟩

/-- C4 (witness): MALLOC 16, MALLOC 16 has a duplicate and no FREE after it; the
entries stay as they are and the repair is reported as failed. -/
theorem duplicates_without_later_free_are_not_repaired_witness :
    (∀ v ∈ (VerifyTrace true [mk_entry MALLOC 16 0, mk_entry MALLOC 16 0]).log,
      no_free_after [mk_entry MALLOC 16 0, mk_entry MALLOC 16 0] v) ∧
    (VerifyTrace true [mk_entry MALLOC 16 0, mk_entry MALLOC 16 0]).log ≠ [] ∧
    (VerifyTrace true [mk_entry MALLOC 16 0, mk_entry MALLOC 16 0]).entries =
      [mk_entry MALLOC 16 0, mk_entry MALLOC 16 0] ∧
    (VerifyTrace true [mk_entry MALLOC 16 0, mk_entry MALLOC 16 0]).error_repaired = false ∧
    final_report true (VerifyTrace true [mk_entry MALLOC 16 0, mk_entry MALLOC 16 0]) =
      Report.repair_failed :=
  have h := duplicates_without_later_free_are_not_repaired
    [mk_entry MALLOC 16 0, mk_entry MALLOC 16 0] (by decide)
  ⟨by decide, by decide, h.1, h.2.1, (h.2.2 (by decide)).2⟩

/-! ### Scanning a repaired trace again -/

theorem release_repaired (ar : Bool) (i : Nat) (e : Entry) (addr : Nat) (s : State)
    (L : Finset Nat) (hk : ∀ a, a ∈ live_keys s.live_ptrs ↔ a ∈ L)
    (h : new_violations_repaired s (release ar i e addr s)) :
    ∃ L1, spec_release L addr = some L1 ∧ (release ar i e addr s).log = s.log ∧
      (∀ a, a ∈ live_keys (release ar i e addr s).live_ptrs ↔ a ∈ L1) := by
  by_cases h0 : addr = 0
  · subst h0
    refine ⟨L, by simp [spec_release], by simp [release_zero], ?_⟩
    simpa [release_zero] using hk
  · cases hf : live_find s.live_ptrs addr with
    | none =>
      exfalso
      have hlog : (release ar i e addr s).log =
          s.log ++ [Violation.unknown_free (i + 1) addr e ar] := by
        simp [release, h0, hf]
      have := h _ hlog _ (List.mem_singleton.2 rfl)
      simp [repaired_plainly] at this
    | some v =>
      have hm : addr ∈ L := (hk addr).1 ((live_find_isSome_iff _ _).1 ⟨v, hf⟩)
      refine ⟨L.erase addr, by simp [spec_release, h0, hm], by simp [release, h0, hf], ?_⟩
      intro a
      simp [release, h0, hf, mem_live_keys_erase, hk]
      tauto

/-- What registration does when all it logs is repaired for good: either it
registers as the data model allows, or it swaps the entry with a later FREE of
its address and erases the address. -/
theorem register_repaired (i : Nat) (e : Entry) (ptr : Nat) (s : State)
    (L : Finset Nat) (hk : ∀ a, a ∈ live_keys s.live_ptrs ↔ a ∈ L)
    (he : s.entries[i]? = some e)
    (h : new_violations_repaired s (register true i e ptr s)) :
    (∃ L1, spec_allocate L ptr = some L1 ∧ (register true i e ptr s).entries = s.entries ∧
      (∀ a, a ∈ live_keys (register true i e ptr s).live_ptrs ↔ a ∈ L1)) ∨
    (ptr ≠ 0 ∧ ptr ∈ L ∧ ¬ (e.type = TypeEnum.REALLOC ∧ e.old_ptr ≠ 0) ∧
      (∃ f, (register true i e ptr s).entries[i]? = some f ∧ f.type = TypeEnum.FREE ∧
        f.ptr = ptr) ∧
      (∀ a, a ∈ live_keys (register true i e ptr s).live_ptrs ↔ a ∈ L.erase ptr)) := by
  by_cases h0 : ptr = 0
  · subst h0
    left
    refine ⟨L, by simp [spec_allocate], by simp [register_zero], ?_⟩
    simpa [register_zero] using hk
  · cases hf : live_find s.live_ptrs ptr with
    | none =>
      have hm : ptr ∉ L := fun hc => (live_find_eq_none_iff _ _).1 hf ((hk ptr).2 hc)
      left
      refine ⟨insert ptr L, by simp [spec_allocate, h0, hm], by simp [register, h0, hf], ?_⟩
      intro a
      simp [register, h0, hf, mem_live_keys_insert, hk]
    | some old =>
      have hm : ptr ∈ L := (hk ptr).1 ((live_find_isSome_iff _ _).1 ⟨old, hf⟩)
      cases hj : find_free ptr (s.entries.drop (i + 1)) (i + 1) with
      | none =>
        exfalso
        have hlog : (register true i e ptr s).log =
            s.log ++ [Violation.duplicate (i + 1) ptr old.2 e s.entries[old.1]? none] := by
          simp [register, h0, hf, hj]
        have := h _ hlog _ (List.mem_singleton.2 rfl)
        simp [repaired_plainly] at this
      | some j =>
        have hlog : (register true i e ptr s).log =
            s.log ++ [Violation.duplicate (i + 1) ptr old.2 e s.entries[old.1]? (some j)] := by
          simp [register, h0, hf, hj]
        have hgood := h _ hlog _ (List.mem_singleton.2 rfl)
        simp only [repaired_plainly] at hgood
        obtain ⟨hij, f, hfj, hft, hfp, _⟩ := find_free_drop_some ptr s.entries i j hj
        right
        refine ⟨h0, hm, hgood, ⟨f, ?_, hft, hfp⟩, ?_⟩
        · have : (register true i e ptr s).entries = swap_entries s.entries i j := by
            simp [register, h0, hf, hj]
          rw [this]
          exact swap_entries_getElem_left s.entries i j e f he hfj (by omega)
        · intro a
          simp [register, h0, hf, hj, mem_live_keys_erase, hk]
          tauto


theorem drop_eq_cons_of_getElem (l : List Entry) : ∀ (i : Nat) (f : Entry), l[i]? = some f →
    l.drop i = f :: l.drop (i + 1) := by
  induction l with
  | nil => intro i f h; simp at h
  | cons x xs ih =>
    intro i f h
    cases i with
    | zero => simp at h; simp [h]
    | succ i => simp at h; simpa using ih i f h

theorem new_violations_split (s m r : State) (l1 l2 : List Violation)
    (h1 : m.log = s.log ++ l1) (h2 : r.log = m.log ++ l2)
    (h : new_violations_repaired s r) :
    new_violations_repaired s m ∧ new_violations_repaired m r := by
  have hr : r.log = s.log ++ (l1 ++ l2) := by rw [h2, h1, List.append_assoc]
  have hall := h _ hr
  constructor
  · intro l hl v hv
    have : l = l1 := List.append_cancel_left (hl.symm.trans h1)
    subst this
    exact hall v (List.mem_append_left _ hv)
  · intro l hl v hv
    have : l = l2 := List.append_cancel_left (hl.symm.trans h2)
    subst this
    exact hall v (List.mem_append_right _ hv)

theorem spec_release_free (L : Finset Nat) (f : Entry) (ptr : Nat)
    (hft : f.type = TypeEnum.FREE) (hfp : f.ptr = ptr) (h0 : ptr ≠ 0) (hm : ptr ∈ L) :
    spec_entry L f = some (L.erase ptr) := by
  simp [spec_entry, hft, spec_release, hfp, h0, hm]

theorem step_repaired (i : Nat) (e : Entry) (s : State) (L : Finset Nat)
    (hk : ∀ a, a ∈ live_keys s.live_ptrs ↔ a ∈ L)
    (he : s.entries[i]? = some e)
    (h : new_violations_repaired s (step true i s)) :
    ∃ f L1, (step true i s).entries[i]? = some f ∧ spec_entry L f = some L1 ∧
      (∀ a, a ∈ live_keys (step true i s).live_ptrs ↔ a ∈ L1) := by
  have hstep : step true i s =
      register true i e (result_ptr e) (release_phase true i e s) := by
    simp [step, he]
  rw [hstep] at h ⊢
  obtain ⟨l1, hl1⟩ := release_phase_log true i e s
  obtain ⟨l2, hl2⟩ := register_log true i e (result_ptr e) (release_phase true i e s)
  obtain ⟨n1, n2⟩ := new_violations_split _ _ _ l1 l2 hl1 hl2 h
  have he1 : (release_phase true i e s).entries[i]? = some e := by
    rw [release_phase_entries]; exact he
  cases ht : e.type
  case THREAD_DONE =>
    refine ⟨e, L, ?_, by simp [spec_entry, ht], ?_⟩
    · simp [result_ptr, release_phase, ht, register_zero, he]
    · simpa [result_ptr, release_phase, ht, register_zero] using hk
  case FREE =>
    have hrp : release_phase true i e s = release true i e e.ptr s := by
      simp [release_phase, ht]
    rw [hrp] at n1
    obtain ⟨L1, g1, _, g3⟩ := release_repaired true i e e.ptr s L hk n1
    refine ⟨e, L1, ?_, by simpa [spec_entry, ht] using g1, ?_⟩
    · simp [result_ptr, ht, register_zero, hrp, release_entries, he]
    · simpa [result_ptr, ht, register_zero, hrp] using g3
  case REALLOC =>
    have hrp : release_phase true i e s = release true i e e.old_ptr s := by
      simp [release_phase, ht]
    have hres : result_ptr e = e.ptr := by simp [result_ptr, ht]
    rw [hrp] at n1 n2 he1 ⊢
    rw [hres] at n2 ⊢
    obtain ⟨L0, g1, _, g3⟩ := release_repaired true i e e.old_ptr s L hk n1
    rcases register_repaired i e e.ptr _ L0 g3 he1 n2 with
      ⟨L1, r1, r2, r3⟩ | ⟨r0, r1, r2, ⟨f, r3, r4, r5⟩, r6⟩
    · refine ⟨e, L1, by rw [r2]; exact he1, ?_, r3⟩
      simp [spec_entry, ht, g1, r1]
    · have hold : e.old_ptr = 0 := by
        by_contra hc
        exact r2 ⟨ht, hc⟩
      have hL0 : L0 = L := by
        simp [spec_release, hold] at g1
        exact g1.symm
      subst hL0
      exact ⟨f, L0.erase e.ptr, r3, spec_release_free L0 f e.ptr r4 r5 r0 r1, r6⟩
  all_goals
    have hrp : release_phase true i e s = s := by
      simp [release_phase, ht]
    have hres : result_ptr e = e.ptr := by simp [result_ptr, ht]
    rw [hrp] at n2 ⊢
    rw [hres] at n2 ⊢
    rcases register_repaired i e e.ptr s L hk he n2 with
      ⟨L1, r1, r2, r3⟩ | ⟨r0, r1, r2, ⟨f, r3, r4, r5⟩, r6⟩
    · refine ⟨e, L1, by rw [r2]; exact he, ?_, r3⟩
      simp [spec_entry, ht, r1]
    · exact ⟨f, L.erase e.ptr, r3, spec_release_free L f e.ptr r4 r5 r0 r1, r6⟩

theorem scan_repaired : ∀ (n i : Nat) (s : State) (L : Finset Nat),
    i + n = s.entries.length → (∀ a, a ∈ live_keys s.live_ptrs ↔ a ∈ L) →
    new_violations_repaired s (scan true n i s) →
    ∃ L1, spec_run L ((scan true n i s).entries.drop i) = some L1 := by
  intro n
  induction n with
  | zero =>
    intro i s L hn _ _
    refine ⟨L, ?_⟩
    have : List.drop i s.entries = [] := List.drop_eq_nil_of_le (by omega)
    simp [scan, this, spec_run]
  | succ n ih =>
    intro i s L hn hk h
    have hi : i < s.entries.length := by omega
    have he : s.entries[i]? = some s.entries[i] := List.getElem?_eq_getElem hi
    simp only [scan] at h ⊢
    obtain ⟨l1, hl1⟩ := step_log true i s
    obtain ⟨l2, hl2⟩ := scan_log true n (i + 1) (step true i s)
    obtain ⟨n1, n2⟩ := new_violations_split _ _ _ l1 l2 hl1 hl2 h
    obtain ⟨f, L0, g1, g2, g3⟩ := step_repaired i _ s L hk he n1
    obtain ⟨L1, hL1⟩ := ih (i + 1) (step true i s) L0
      (by rw [step_length]; omega) g3 n2
    have hfi : (scan true n (i + 1) (step true i s)).entries[i]? = some f := by
      rw [scan_getElem_lt true n (i + 1) i _ (by omega)]; exact g1
    refine ⟨L1, ?_⟩
    rw [drop_eq_cons_of_getElem _ i f hfi]
    simp [spec_run, g2, hL1]

/-- C5 (amended): when every violation reported by the scan with attempt_repair
is a duplicate that was repaired by the swap, the entry that raised it not
being a REALLOC with a non-zero old pointer, the resulting entries obey the
allocator semantics, and scanning them again, with either value of
attempt_repair, reports no violation and leaves them unchanged. -/
theorem plainly_repaired_trace_is_valid (attempt_repair : Bool) (entries : List Entry)
    (h : ∀ v ∈ (VerifyTrace true entries).log, repaired_plainly v) :
    spec_valid (VerifyTrace true entries).entries ∧
    (VerifyTrace attempt_repair (VerifyTrace true entries).entries).found_error = false ∧
    (VerifyTrace attempt_repair (VerifyTrace true entries).entries).log = [] ∧
    (VerifyTrace attempt_repair (VerifyTrace true entries).entries).entries =
      (VerifyTrace true entries).entries := by
  have hv : spec_valid (VerifyTrace true entries).entries := by
    obtain ⟨L1, hL1⟩ := scan_repaired entries.length 0 (init_state entries) ∅
      (by simp [init_state]) (by simp [init_state, live_keys])
      (by
        intro l hl v hv
        have : (VerifyTrace true entries).log = l := by
          simpa [VerifyTrace, init_state] using hl
        exact h v (by rw [this]; exact hv))
    unfold spec_valid
    have : spec_run ∅ (VerifyTrace true entries).entries = some L1 := by
      simpa [VerifyTrace] using hL1
    rw [this]; rfl
  obtain ⟨L2, hL2⟩ := Option.isSome_iff_exists.1 hv
  obtain ⟨h1, h2, _, h4, _⟩ :=
    scan_of_valid attempt_repair [] (VerifyTrace true entries).entries 0
      (init_state (VerifyTrace true entries).entries) ∅ L2 (by simp [init_state])
      (by simp [init_state, live_keys]) hL2
  exact ⟨hv, h2, h4, h1⟩

/-- C5 (witness): MALLOC 16, CALLOC 16, FREE 16 is repaired to MALLOC 16, FREE 16,
CALLOC 16, and the second scan logs nothing. -/
theorem plainly_repaired_trace_is_valid_witness :
    (∀ v ∈ (VerifyTrace true [mk_entry MALLOC 16 0, mk_entry CALLOC 16 0, mk_entry FREE 16 0]).log,
      repaired_plainly v) ∧
    (VerifyTrace true [mk_entry MALLOC 16 0, mk_entry CALLOC 16 0, mk_entry FREE 16 0]).entries =
      [mk_entry MALLOC 16 0, mk_entry FREE 16 0, mk_entry CALLOC 16 0] ∧
    (VerifyTrace true
      (VerifyTrace true [mk_entry MALLOC 16 0, mk_entry CALLOC 16 0, mk_entry FREE 16 0]).entries).log
      = [] :=
  ⟨by decide, by decide,
    (plainly_repaired_trace_is_valid true
      [mk_entry MALLOC 16 0, mk_entry CALLOC 16 0, mk_entry FREE 16 0] (by decide)).2.2.1⟩

/-- C5 (counterexample): on FREE 5, MALLOC 1, MALLOC 1, FREE 1 the scan with
attempt_repair ends with error_repaired set (the duplicate at line 3 was
swapped) and hands the entries to WriteRepairEntries; scanning the resulting
entries again with attempt_repair reports the release of the unknown address 5
again. -/
theorem repaired_flag_does_not_make_rescan_clean :
    (VerifyTrace true unknown_release_and_duplicate_trace).error_repaired = true ∧
    final_report true (VerifyTrace true unknown_release_and_duplicate_trace) =
      Report.repair_written
        [mk_entry FREE 5 0, mk_entry MALLOC 1 0, mk_entry FREE 1 0, mk_entry MALLOC 1 0] ∧
    (VerifyTrace true (VerifyTrace true unknown_release_and_duplicate_trace).entries).log =
      [Violation.unknown_free 1 5 (mk_entry FREE 5 0) true] ∧
    (VerifyTrace true
      (VerifyTrace true unknown_release_and_duplicate_trace).entries).found_error = true := by
  decide

/-! ### The scan as a function of the entries still to come -/

theorem replace_first_free_eq (ptr : Nat) (e : Entry) (l : List Entry) : ∀ (j0 : Nat),
    replace_first_free ptr e l = (find_free ptr l j0).map (fun j => l.set (j - j0) e) := by
  induction l with
  | nil => intro j0; simp [replace_first_free, find_free]
  | cons x xs ih =>
    intro j0
    by_cases hx : x.type = TypeEnum.FREE ∧ x.ptr = ptr
    · simp [replace_first_free, find_free, hx]
    · simp only [replace_first_free, find_free]
      rw [if_neg hx, if_neg hx, ih (j0 + 1)]
      cases hj : find_free ptr xs (j0 + 1) with
      | none => simp
      | some j =>
        obtain ⟨n, _, hn, _⟩ := find_free_some ptr xs (j0 + 1) j hj
        have h1 : j - j0 = (j - (j0 + 1)) + 1 := by omega
        simp [h1]

theorem drop_swap_entries (es : List Entry) (i j : Nat) (a b : Entry)
    (ha : es[i]? = some a) (hb : es[j]? = some b) (hij : i < j) :
    (swap_entries es i j).drop (i + 1) = (es.drop (i + 1)).set (j - (i + 1)) a := by
  apply List.ext_getElem?
  intro k
  rw [List.getElem?_drop]
  by_cases hk : i + 1 + k = j
  · have hj : j < es.length := (List.getElem?_eq_some_iff.1 hb).1
    rw [hk, swap_entries_getElem_right es i j a b ha hb]
    have : k = j - (i + 1) := by omega
    subst this
    rw [List.getElem?_set_self (by simp; omega)]
  · rw [swap_entries_getElem_other es i j _ (by omega) hk,
      List.getElem?_set_ne (by omega), List.getElem?_drop]

theorem observe_release (ar : Bool) (i : Nat) (e : Entry) (addr : Nat) (s : State) :
    observe (release ar i e addr s) = obs_release (observe s) addr := by
  by_cases h0 : addr = 0
  · simp [release, obs_release, h0]
  · cases hf : live_find s.live_ptrs addr with
    | none =>
      have hm : addr ∉ live_keys s.live_ptrs := (live_find_eq_none_iff _ _).1 hf
      simp [release, obs_release, h0, hf, observe, hm]
    | some v =>
      have hm : addr ∈ live_keys s.live_ptrs := (live_find_isSome_iff _ _).1 ⟨v, hf⟩
      simp [release, obs_release, h0, hf, observe, hm, live_keys_erase]

theorem observe_release_phase (ar : Bool) (i : Nat) (e : Entry) (s : State) :
    observe (release_phase ar i e s) = obs_release_phase (observe s) e := by
  cases ht : e.type <;> simp [release_phase, obs_release_phase, ht, observe_release]

theorem observe_register (ar : Bool) (i : Nat) (e : Entry) (ptr : Nat) (s : State)
    (he : s.entries[i]? = some e) :
    observe (register ar i e ptr s) =
      (obs_register ar (observe s) e ptr (s.entries.drop (i + 1))).1 ∧
    (register ar i e ptr s).entries.drop (i + 1) =
      (obs_register ar (observe s) e ptr (s.entries.drop (i + 1))).2 := by
  by_cases h0 : ptr = 0
  · simp [register, obs_register, h0]
  · cases hf : live_find s.live_ptrs ptr with
    | none =>
      have hm : ptr ∉ live_keys s.live_ptrs := (live_find_eq_none_iff _ _).1 hf
      simp [register, obs_register, h0, hf, observe, hm, live_keys_insert]
    | some v =>
      have hm : ptr ∈ live_keys s.live_ptrs := (live_find_isSome_iff _ _).1 ⟨v, hf⟩
      cases ar with
      | false => simp [register, obs_register, h0, hf, observe, hm]
      | true =>
        have hrep := replace_first_free_eq ptr e (s.entries.drop (i + 1)) (i + 1)
        cases hj : find_free ptr (s.entries.drop (i + 1)) (i + 1) with
        | none =>
          rw [hj] at hrep
          simp at hrep
          simp [register, obs_register, h0, hf, observe, hm, hj, hrep]
        | some j =>
          rw [hj] at hrep
          simp at hrep
          obtain ⟨hij, f, hfj, _⟩ := find_free_drop_some ptr s.entries i j hj
          simp [register, obs_register, h0, hf, observe, hm, hj, hrep, live_keys_erase]
          exact drop_swap_entries s.entries i j e f he hfj hij

theorem obs_scan_nil (ar : Bool) (n : Nat) (o : Obs) : obs_scan ar n o [] = o := by
  cases n <;> simp [obs_scan]

theorem observe_scan (ar : Bool) : ∀ (n i : Nat) (s : State),
    observe (scan ar n i s) = obs_scan ar n (observe s) (s.entries.drop i) := by
  intro n
  induction n with
  | zero => intro i s; simp [scan, obs_scan]
  | succ n ih =>
    intro i s
    simp only [scan]
    rw [ih]
    cases he : s.entries[i]? with
    | none =>
      have hlen : s.entries.length ≤ i := by
        by_contra hc
        have := List.getElem?_eq_getElem (Nat.lt_of_not_le hc)
        rw [he] at this
        exact absurd this (by simp)
      have h1 : s.entries.drop i = [] := List.drop_eq_nil_of_le hlen
      have h2 : s.entries.drop (i + 1) = [] := List.drop_eq_nil_of_le (by omega)
      simp [step, he, h1, h2, obs_scan_nil]
    | some e =>
      have hd := drop_eq_cons_of_getElem s.entries i e he
      rw [hd]
      simp only [obs_scan]
      have hstep : step ar i s = register ar i e (result_ptr e) (release_phase ar i e s) := by
        simp [step, he]
      have he1 : (release_phase ar i e s).entries[i]? = some e := by
        rw [release_phase_entries]; exact he
      obtain ⟨g1, g2⟩ := observe_register ar i e (result_ptr e) (release_phase ar i e s) he1
      rw [release_phase_entries, observe_release_phase] at g1 g2
      rw [hstep, g1, g2]
      rfl

/-! ### THREAD_DONE entries -/

theorem obs_step_thread_done (ar : Bool) (o : Obs) (td : Entry) (rest : List Entry)
    (htd : td.type = TypeEnum.THREAD_DONE) : obs_step ar o td rest = (o, rest) := by
  simp [obs_step, obs_release_phase, result_ptr, htd, obs_register]

theorem replace_first_free_length (ptr : Nat) (e : Entry) (l : List Entry) :
    ∀ r, replace_first_free ptr e l = some r → r.length = l.length := by
  induction l with
  | nil => intro r h; simp [replace_first_free] at h
  | cons x xs ih =>
    intro r h
    by_cases hx : x.type = TypeEnum.FREE ∧ x.ptr = ptr
    · simp [replace_first_free, hx] at h
      subst h
      simp
    · simp only [replace_first_free] at h
      rw [if_neg hx] at h
      cases hr : replace_first_free ptr e xs with
      | none => simp [hr] at h
      | some r1 =>
        simp [hr] at h
        subst h
        simp [ih r1 hr]

theorem obs_register_length (ar : Bool) (o : Obs) (e : Entry) (ptr : Nat) (rest : List Entry) :
    (obs_register ar o e ptr rest).2.length = rest.length := by
  unfold obs_register
  split
  · split
    · split
      · split
        · rename_i r hr
          exact replace_first_free_length ptr e rest r hr
        · rfl
      · rfl
    · rfl
  · rfl

theorem obs_step_length (ar : Bool) (o : Obs) (e : Entry) (rest : List Entry) :
    (obs_step ar o e rest).2.length = rest.length :=
  obs_register_length ar _ e _ rest

theorem insert_entry_zero (td : Entry) (l : List Entry) : insert_entry 0 td l = td :: l := by
  simp [insert_entry]

theorem insert_entry_nil (m : Nat) (td : Entry) : insert_entry m td [] = [td] := by
  simp [insert_entry]

theorem insert_entry_succ (m : Nat) (td x : Entry) (xs : List Entry) :
    insert_entry (m + 1) td (x :: xs) = x :: insert_entry m td xs := by
  simp [insert_entry]

theorem replace_first_free_insert (ptr : Nat) (e td : Entry)
    (htd : td.type = TypeEnum.THREAD_DONE) (l : List Entry) : ∀ (m : Nat),
    replace_first_free ptr e (insert_entry m td l) =
      (replace_first_free ptr e l).map (insert_entry m td) := by
  have htd1 : ¬ (td.type = TypeEnum.FREE ∧ td.ptr = ptr) := by simp [htd]
  induction l with
  | nil =>
    intro m
    simp [insert_entry_nil, replace_first_free, htd1]
  | cons x xs ih =>
    intro m
    cases m with
    | zero =>
      rw [insert_entry_zero]
      simp only [replace_first_free]
      rw [if_neg htd1]
      by_cases hx : x.type = TypeEnum.FREE ∧ x.ptr = ptr
      · simp [hx, insert_entry_zero]
      · rw [if_neg hx]
        cases replace_first_free ptr e xs <;> simp [insert_entry_zero]
    | succ m =>
      rw [insert_entry_succ]
      by_cases hx : x.type = TypeEnum.FREE ∧ x.ptr = ptr
      · simp [replace_first_free, hx, insert_entry_succ]
      · simp only [replace_first_free]
        rw [if_neg hx, if_neg hx, ih m]
        cases replace_first_free ptr e xs <;> simp [insert_entry_succ]

theorem obs_register_insert (ar : Bool) (o : Obs) (e td : Entry) (ptr m : Nat)
    (htd : td.type = TypeEnum.THREAD_DONE) (rest : List Entry) :
    obs_register ar o e ptr (insert_entry m td rest) =
      ((obs_register ar o e ptr rest).1, insert_entry m td (obs_register ar o e ptr rest).2) := by
  unfold obs_register
  rw [replace_first_free_insert ptr e td htd rest m]
  split
  · split
    · split
      · cases replace_first_free ptr e rest <;> simp
      · rfl
    · rfl
  · rfl

theorem obs_scan_insert (ar : Bool) (td : Entry) (htd : td.type = TypeEnum.THREAD_DONE) :
    ∀ (n : Nat) (o : Obs) (l : List Entry) (m : Nat), l.length ≤ n →
      obs_scan ar (n + 1) o (insert_entry m td l) = obs_scan ar n o l := by
  intro n
  induction n with
  | zero =>
    intro o l m hl
    have : l = [] := List.eq_nil_of_length_eq_zero (by omega)
    subst this
    simp [insert_entry_nil, obs_scan, obs_step_thread_done ar o td [] htd]
  | succ n ih =>
    intro o l m hl
    cases l with
    | nil =>
      simp [insert_entry_nil, obs_scan, obs_step_thread_done ar o td [] htd, obs_scan_nil]
    | cons x xs =>
      cases m with
      | zero =>
        rw [insert_entry_zero]
        conv => lhs; unfold obs_scan
        simp only [obs_step_thread_done ar o td (x :: xs) htd]
      | succ m =>
        rw [insert_entry_succ]
        conv => lhs; unfold obs_scan
        conv => rhs; unfold obs_scan
        have h1 : obs_step ar o x (insert_entry m td xs) =
            ((obs_step ar o x xs).1, insert_entry m td (obs_step ar o x xs).2) :=
          obs_register_insert ar _ x td _ m htd xs
        rw [h1]
        exact ih _ _ m (by rw [obs_step_length]; simpa using hl)

theorem insert_entry_length (k : Nat) (td : Entry) (es : List Entry) :
    (insert_entry k td es).length = es.length + 1 := by
  simp [insert_entry]
  omega

theorem observe_verify (ar : Bool) (es : List Entry) :
    observe (VerifyTrace ar es) =
      obs_scan ar es.length { keys := [], found_error := false, error_repaired := false } es := by
  unfold VerifyTrace
  rw [observe_scan]
  simp [init_state, observe, live_keys]

theorem obs_scan_succ_fuel (ar : Bool) : ∀ (n : Nat) (o : Obs) (l : List Entry),
    l.length ≤ n → obs_scan ar (n + 1) o l = obs_scan ar n o l := by
  intro n
  induction n with
  | zero =>
    intro o l hl
    have : l = [] := List.eq_nil_of_length_eq_zero (by omega)
    subst this
    simp [obs_scan]
  | succ n ih =>
    intro o l hl
    cases l with
    | nil => simp [obs_scan]
    | cons x xs =>
      conv => lhs; unfold obs_scan
      conv => rhs; unfold obs_scan
      exact ih _ _ (by rw [obs_step_length]; simpa using hl)

theorem obs_scan_add_fuel (ar : Bool) (k : Nat) : ∀ (n : Nat) (o : Obs) (l : List Entry),
    l.length ≤ n → obs_scan ar (n + k) o l = obs_scan ar n o l := by
  induction k with
  | zero => intro n o l _; rfl
  | succ k ih =>
    intro n o l hl
    have : n + (k + 1) = (n + k) + 1 := by omega
    rw [this, obs_scan_succ_fuel ar (n + k) o l (by omega)]
    exact ih n o l hl

theorem without_thread_done_cons_pos (x : Entry) (xs : List Entry)
    (hx : x.type ≠ TypeEnum.THREAD_DONE) :
    without_thread_done (x :: xs) = x :: without_thread_done xs := by
  simp [without_thread_done, hx]

theorem without_thread_done_cons_neg (x : Entry) (xs : List Entry)
    (hx : x.type = TypeEnum.THREAD_DONE) :
    without_thread_done (x :: xs) = without_thread_done xs := by
  simp [without_thread_done, hx]

theorem without_thread_done_length (es : List Entry) :
    (without_thread_done es).length ≤ es.length :=
  List.length_filter_le _ _

theorem replace_first_free_filter (ptr : Nat) (e : Entry)
    (he : e.type ≠ TypeEnum.THREAD_DONE) (l : List Entry) :
    replace_first_free ptr e (without_thread_done l) =
      (replace_first_free ptr e l).map without_thread_done := by
  induction l with
  | nil => simp [without_thread_done, replace_first_free]
  | cons x xs ih =>
    by_cases hx : x.type = TypeEnum.FREE ∧ x.ptr = ptr
    · have hx1 : x.type ≠ TypeEnum.THREAD_DONE := by simp [hx.1]
      rw [without_thread_done_cons_pos x xs hx1]
      simp [replace_first_free, hx, without_thread_done_cons_pos e xs he]
    · by_cases hx1 : x.type = TypeEnum.THREAD_DONE
      · rw [without_thread_done_cons_neg x xs hx1, ih]
        simp only [replace_first_free]
        rw [if_neg hx]
        cases replace_first_free ptr e xs <;> simp [without_thread_done_cons_neg x _ hx1]
      · rw [without_thread_done_cons_pos x xs hx1]
        simp only [replace_first_free]
        rw [if_neg hx, if_neg hx, ih]
        cases replace_first_free ptr e xs <;> simp [without_thread_done_cons_pos x _ hx1]

theorem obs_step_filter (ar : Bool) (o : Obs) (e : Entry)
    (he : e.type ≠ TypeEnum.THREAD_DONE) (rest : List Entry) :
    obs_step ar o e (without_thread_done rest) =
      ((obs_step ar o e rest).1, without_thread_done (obs_step ar o e rest).2) := by
  unfold obs_step obs_register
  rw [replace_first_free_filter (result_ptr e) e he rest]
  split
  · split
    · split
      · cases replace_first_free (result_ptr e) e rest <;> simp
      · rfl
    · rfl
  · rfl

theorem obs_scan_filter (ar : Bool) : ∀ (n : Nat) (o : Obs) (l : List Entry),
    l.length ≤ n → obs_scan ar n o (without_thread_done l) = obs_scan ar n o l := by
  intro n
  induction n with
  | zero => intro o l _; simp [obs_scan]
  | succ n ih =>
    intro o l hl
    cases l with
    | nil => simp [without_thread_done, obs_scan]
    | cons x xs =>
      have hxs : xs.length ≤ n := by simpa using hl
      by_cases hx : x.type = TypeEnum.THREAD_DONE
      · rw [without_thread_done_cons_neg x xs hx,
          obs_scan_succ_fuel ar n o _ (le_trans (without_thread_done_length xs) hxs), ih o xs hxs]
        conv => rhs; unfold obs_scan
        simp only [obs_step_thread_done ar o x xs hx]
      · rw [without_thread_done_cons_pos x xs hx]
        conv => lhs; unfold obs_scan
        conv => rhs; unfold obs_scan
        rw [obs_step_filter ar o x hx xs]
        exact ih _ _ (by rw [obs_step_length]; exact hxs)

/-- C7: with either value of attempt_repair, inserting a THREAD_DONE entry, whatever
its other fields, at any position k of a trace changes neither found_error nor
error_repaired nor the addresses live at the end of the scan; and deleting all
THREAD_DONE entries of a trace leaves these three results unchanged as well. -/
theorem thread_done_is_inert (attempt_repair : Bool) (entries : List Entry) (k : Nat)
    (td : Entry) (htd : td.type = TypeEnum.THREAD_DONE) :
    ((VerifyTrace attempt_repair (insert_entry k td entries)).found_error =
        (VerifyTrace attempt_repair entries).found_error ∧
      (VerifyTrace attempt_repair (insert_entry k td entries)).error_repaired =
        (VerifyTrace attempt_repair entries).error_repaired ∧
      live_keys (VerifyTrace attempt_repair (insert_entry k td entries)).live_ptrs =
        live_keys (VerifyTrace attempt_repair entries).live_ptrs) ∧
    ((VerifyTrace attempt_repair (without_thread_done entries)).found_error =
        (VerifyTrace attempt_repair entries).found_error ∧
      (VerifyTrace attempt_repair (without_thread_done entries)).error_repaired =
        (VerifyTrace attempt_repair entries).error_repaired ∧
      live_keys (VerifyTrace attempt_repair (without_thread_done entries)).live_ptrs =
        live_keys (VerifyTrace attempt_repair entries).live_ptrs) := by
  have h : observe (VerifyTrace attempt_repair (insert_entry k td entries)) =
      observe (VerifyTrace attempt_repair entries) := by
    rw [observe_verify, observe_verify, insert_entry_length]
    exact obs_scan_insert attempt_repair td htd entries.length _ entries k (le_refl _)
  have h2 : observe (VerifyTrace attempt_repair (without_thread_done entries)) =
      observe (VerifyTrace attempt_repair entries) := by
    rw [observe_verify, observe_verify]
    have hle := without_thread_done_length entries
    have hfuel := obs_scan_add_fuel attempt_repair
      (entries.length - (without_thread_done entries).length)
      (without_thread_done entries).length
      { keys := [], found_error := false, error_repaired := false }
      (without_thread_done entries) (le_refl _)
    have hsum : (without_thread_done entries).length +
        (entries.length - (without_thread_done entries).length) = entries.length := by omega
    rw [hsum] at hfuel
    rw [← hfuel]
    exact obs_scan_filter attempt_repair entries.length _ entries (le_refl _)
  simp only [observe, Obs.mk.injEq] at h h2
  exact ⟨⟨h.2.1, h.2.2, h.1⟩, ⟨h2.2.1, h2.2.2, h2.1⟩⟩

/-- C7 (witness): a THREAD_DONE inserted between the duplicate and the FREE it is
swapped with does not change error_repaired. -/
theorem thread_done_is_inert_witness :
    (mk_entry THREAD_DONE 16 0).type = TypeEnum.THREAD_DONE ∧
    (VerifyTrace true (insert_entry 2 (mk_entry THREAD_DONE 16 0)
      [mk_entry MALLOC 16 0, mk_entry MALLOC 16 0, mk_entry FREE 16 0])).error_repaired =
      (VerifyTrace true
        [mk_entry MALLOC 16 0, mk_entry MALLOC 16 0, mk_entry FREE 16 0]).error_repaired :=
  ⟨by decide, (thread_done_is_inert true
      [mk_entry MALLOC 16 0, mk_entry MALLOC 16 0, mk_entry FREE 16 0] 2
      (mk_entry THREAD_DONE 16 0) (by decide)).1.2.1⟩

/-! ### The repaired flag -/

theorem last_duplicate_swapped_append (l : List Violation) (v : Violation) :
    last_duplicate_swapped (l ++ [v]) =
      match v with
      | Violation.duplicate _ _ _ _ _ sw => sw.isSome
      | Violation.unknown_free _ _ _ _ => last_duplicate_swapped l := by
  cases v <;> simp [last_duplicate_swapped, List.foldl_append]

theorem last_duplicate_swapped_iff (log : List Violation) :
    last_duplicate_swapped log = true ↔
      ∃ pre line p pl o d j post,
        log = pre ++ Violation.duplicate line p pl o d (some j) :: post ∧
        duplicate_count post = 0 := by
  induction log using List.reverseRecOn with
  | nil => simp [last_duplicate_swapped]
  | append_singleton l v ih =>
    rw [last_duplicate_swapped_append]
    cases v with
    | unknown_free line p e u =>
      simp only
      rw [ih]
      constructor
      · rintro ⟨pre, line1, p1, pl, o, d, j, post, h1, h2⟩
        refine ⟨pre, line1, p1, pl, o, d, j, post ++ [Violation.unknown_free line p e u], ?_, ?_⟩
        · rw [h1]; simp
        · simp [duplicate_count, List.countP_append] at h2 ⊢
          exact h2
      · rintro ⟨pre, line1, p1, pl, o, d, j, post, h1, h2⟩
        rcases List.eq_nil_or_concat post with hp | ⟨post1, w, hp⟩
        · subst hp
          have := congrArg List.getLast? h1
          simp at this
        · subst hp
          have h3 : l ++ [Violation.unknown_free line p e u] =
              (pre ++ Violation.duplicate line1 p1 pl o d (some j) :: post1) ++ [w] := by
            rw [h1]; simp
          obtain ⟨h4, h5⟩ := List.append_inj' h3 rfl
          refine ⟨pre, line1, p1, pl, o, d, j, post1, h4, ?_⟩
          simp [duplicate_count, List.countP_append] at h2 ⊢
          exact h2.1
    | duplicate line p pl o d sw =>
      simp only
      constructor
      · intro hsw
        obtain ⟨j, hj⟩ := Option.isSome_iff_exists.1 hsw
        subst hj
        exact ⟨l, line, p, pl, o, d, j, [], rfl, by simp [duplicate_count]⟩
      · rintro ⟨pre, line1, p1, pl1, o1, d1, j, post, h1, h2⟩
        rcases List.eq_nil_or_concat post with hp | ⟨post1, w, hp⟩
        · subst hp
          obtain ⟨_, h5⟩ := List.append_inj' h1 rfl
          simp at h5
          simp [h5.2.2.2.2.2]
        · subst hp
          exfalso
          have h3 : l ++ [Violation.duplicate line p pl o d sw] =
              (pre ++ Violation.duplicate line1 p1 pl1 o1 d1 (some j) :: post1) ++ [w] := by
            rw [h1]; simp
          obtain ⟨_, h5⟩ := List.append_inj' h3 rfl
          simp at h5
          subst h5
          simp [duplicate_count, List.countP_append] at h2

theorem register_error_repaired_no_repair (i : Nat) (e : Entry) (ptr : Nat) (s : State) :
    (register false i e ptr s).error_repaired = s.error_repaired := by
  unfold register
  split
  · split
    · simp
    · rfl
  · rfl

theorem step_error_repaired_no_repair (i : Nat) (s : State) :
    (step false i s).error_repaired = s.error_repaired := by
  unfold step
  split
  · rfl
  · rw [register_error_repaired_no_repair, release_phase_error_repaired]

theorem scan_error_repaired_no_repair : ∀ (n i : Nat) (s : State),
    (scan false n i s).error_repaired = s.error_repaired := by
  intro n
  induction n with
  | zero => intro i s; rfl
  | succ n ih => intro i s; simp only [scan]; rw [ih, step_error_repaired_no_repair]

/-! ### The swap partner -/

theorem find_free_exists (ptr : Nat) (es : List Entry) (i m : Nat) (f : Entry)
    (hm : i < m) (hf : es[m]? = some f) (hft : f.type = TypeEnum.FREE) (hfp : f.ptr = ptr) :
    ∃ j, find_free ptr (es.drop (i + 1)) (i + 1) = some j := by
  cases h : find_free ptr (es.drop (i + 1)) (i + 1) with
  | some j => exact ⟨j, rfl⟩
  | none =>
    exfalso
    have hn := (find_free_none ptr _ _).1 h f
    apply hn _ ⟨hft, hfp⟩
    have : (es.drop (i + 1))[m - (i + 1)]? = some f := by
      rw [List.getElem?_drop]
      have : i + 1 + (m - (i + 1)) = m := by omega
      rw [this]; exact hf
    exact List.getElem?_mem this

/-- C13: in the scan with attempt_repair, when the entry e at position i returns a
non-zero address that is live after the switch (a duplicate violation) and some
later position holds a FREE of that address, the swap partner is the least
such position j > i (no FREE of the address lies strictly between i and j,
other entries are skipped); after the step position i holds the FREE entry and
position j holds e, every other position and the length are unchanged, the
address is no longer a key of the map, the violation is logged with its swap
partner and error_repaired is set; the scan goes on at position i + 1. -/
theorem swap_partner_is_first_later_free (i : Nat) (s : State) (e : Entry)
    (he : s.entries[i]? = some e) (hp : result_ptr e ≠ 0)
    (hlive : result_ptr e ∈ live_keys (release_phase true i e s).live_ptrs)
    (hfree : ∃ m f, i < m ∧ s.entries[m]? = some f ∧ f.type = TypeEnum.FREE ∧
      f.ptr = result_ptr e) :
    ∃ j f, i < j ∧ s.entries[j]? = some f ∧ f.type = TypeEnum.FREE ∧ f.ptr = result_ptr e ∧
      (∀ m e1, i < m → m < j → s.entries[m]? = some e1 →
        ¬ (e1.type = TypeEnum.FREE ∧ e1.ptr = result_ptr e)) ∧
      (step true i s).entries[i]? = some f ∧
      (step true i s).entries[j]? = some e ∧
      (∀ k, k ≠ i → k ≠ j → (step true i s).entries[k]? = s.entries[k]?) ∧
      (step true i s).entries.length = s.entries.length ∧
      result_ptr e ∉ live_keys (step true i s).live_ptrs ∧
      (∃ pl d, (step true i s).log = (release_phase true i e s).log ++
        [Violation.duplicate (i + 1) (result_ptr e) pl e d (some j)]) ∧
      (step true i s).error_repaired = true ∧
      (∀ n, scan true (n + 1) i s = scan true n (i + 1) (step true i s)) := by
  obtain ⟨m, f0, hm, hf0, hft0, hfp0⟩ := hfree
  obtain ⟨old, hold⟩ := (live_find_isSome_iff _ _).2 hlive
  have hent : (release_phase true i e s).entries = s.entries := release_phase_entries true i e s
  obtain ⟨j, hj⟩ := find_free_exists (result_ptr e) s.entries i m f0 hm hf0 hft0 hfp0
  obtain ⟨hij, f, hfj, hft, hfp, hmin⟩ := find_free_drop_some (result_ptr e) s.entries i j hj
  have hstep : step true i s =
      { entries := swap_entries s.entries i j
        live_ptrs := live_erase (release_phase true i e s).live_ptrs (result_ptr e)
        found_error := true
        error_repaired := true
        log := (release_phase true i e s).log ++
          [Violation.duplicate (i + 1) (result_ptr e) old.2 e s.entries[old.1]? (some j)] } := by
    simp [step, he, register, hp, hold, hent, hj]
  refine ⟨j, f, hij, hfj, hft, hfp, hmin, ?_, ?_, ?_, ?_, ?_, ?_, ?_, ?_⟩
  · rw [hstep]; exact swap_entries_getElem_left s.entries i j e f he hfj (by omega)
  · rw [hstep]; exact swap_entries_getElem_right s.entries i j e f he hfj
  · intro k hk1 hk2
    rw [hstep]; exact swap_entries_getElem_other s.entries i j k hk1 hk2
  · exact step_length true i s
  · rw [hstep]
    intro hc
    exact ((mem_live_keys_erase _ _ _).1 hc).2 rfl
  · exact ⟨old.2, s.entries[old.1]?, by rw [hstep]⟩
  · rw [hstep]
  · intro n; rfl

/-- C13 (witness): after the first step on MALLOC 16, MALLOC 16, FREE 16 the entry at
position 1 is a duplicate and the FREE at position 2 is its swap partner. -/
theorem swap_partner_is_first_later_free_witness :
    (scan true 1 0 (init_state
      [mk_entry MALLOC 16 0, mk_entry MALLOC 16 0, mk_entry FREE 16 0])).entries[1]? =
      some (mk_entry MALLOC 16 0) ∧
    ∃ j f, 1 < j ∧ f.type = TypeEnum.FREE ∧
      (step true 1 (scan true 1 0 (init_state
        [mk_entry MALLOC 16 0, mk_entry MALLOC 16 0, mk_entry FREE 16 0]))).entries[1]? = some f :=
  ⟨by decide,
    let ⟨j, f, h1, _, h3, _, _, h6, _⟩ := swap_partner_is_first_later_free 1
      (scan true 1 0 (init_state
        [mk_entry MALLOC 16 0, mk_entry MALLOC 16 0, mk_entry FREE 16 0]))
      (mk_entry MALLOC 16 0) (by decide) (by decide) (by decide)
      ⟨2, mk_entry FREE 16 0, by decide, by decide, by decide, by decide⟩
    ⟨j, f, h1, h3, h6⟩⟩

/-! ### Reallocation in place -/

theorem live_find_insert_self (m : LiveMap) (k : Nat) (v : Nat × Nat) :
    live_find (live_insert m k v) k = some v := by
  simp [live_insert, live_find]

/-- C16: a REALLOC releases its old pointer before its address is registered. In
any state of the scan in which the non-zero old pointer of a REALLOC entry is
live and its non-zero address is equal to the old pointer (reallocation in
place) or not live, the step raises no violation: entries, flags and log are
unchanged, the old pointer is erased and the address is registered for this
entry at its own position (index i, line i + 1). -/
theorem realloc_releases_before_registering (attempt_repair : Bool) (i : Nat) (s : State)
    (e : Entry) (he : s.entries[i]? = some e) (ht : e.type = TypeEnum.REALLOC)
    (hold : e.old_ptr ≠ 0) (hlive : e.old_ptr ∈ live_keys s.live_ptrs) (hptr : e.ptr ≠ 0)
    (hfree : e.ptr = e.old_ptr ∨ e.ptr ∉ live_keys s.live_ptrs) :
    step attempt_repair i s =
      { s with live_ptrs := live_insert (live_erase s.live_ptrs e.old_ptr) e.ptr (i, i + 1) } ∧
    (step attempt_repair i s).log = s.log ∧
    (step attempt_repair i s).found_error = s.found_error ∧
    (step attempt_repair i s).error_repaired = s.error_repaired ∧
    (step attempt_repair i s).entries = s.entries ∧
    live_find (step attempt_repair i s).live_ptrs e.ptr = some (i, i + 1) ∧
    (e.ptr ≠ e.old_ptr → e.old_ptr ∉ live_keys (step attempt_repair i s).live_ptrs) := by
  obtain ⟨v, hv⟩ := (live_find_isSome_iff _ _).2 hlive
  have hnot : e.ptr ∉ live_keys (live_erase s.live_ptrs e.old_ptr) := by
    intro hc
    obtain ⟨h1, h2⟩ := (mem_live_keys_erase _ _ _).1 hc
    rcases hfree with h | h
    · exact h2 h
    · exact h h1
  have hnone : live_find (live_erase s.live_ptrs e.old_ptr) e.ptr = none :=
    (live_find_eq_none_iff _ _).2 hnot
  have hstep : step attempt_repair i s =
      { s with live_ptrs := live_insert (live_erase s.live_ptrs e.old_ptr) e.ptr (i, i + 1) } := by
    simp [step, he, release_phase, result_ptr, ht, release, hold, hv, register, hptr, hnone]
  refine ⟨hstep, ?_, ?_, ?_, ?_, ?_, ?_⟩
  · rw [hstep]
  · rw [hstep]
  · rw [hstep]
  · rw [hstep]
  · rw [hstep]; exact live_find_insert_self _ _ _
  · intro hne
    rw [hstep]
    intro hc
    rcases (mem_live_keys_insert _ _ _ _).1 hc with h | h
    · exact hne h.symm
    · exact ((mem_live_keys_erase _ _ _).1 h).2 rfl

/-- C16 (witness): after MALLOC 16 the entry REALLOC (16 to 16) at position 1 takes
over address 16 at line 2 and nothing is logged. -/
theorem realloc_releases_before_registering_witness :
    (scan true 1 0 (init_state [mk_entry MALLOC 16 0, mk_entry REALLOC 16 16])).entries[1]? =
      some (mk_entry REALLOC 16 16) ∧
    (step true 1 (scan true 1 0
      (init_state [mk_entry MALLOC 16 0, mk_entry REALLOC 16 16]))).log = [] ∧
    live_find (step true 1 (scan true 1 0
      (init_state [mk_entry MALLOC 16 0, mk_entry REALLOC 16 16]))).live_ptrs 16 = some (1, 2) :=
  have h := realloc_releases_before_registering true 1
    (scan true 1 0 (init_state [mk_entry MALLOC 16 0, mk_entry REALLOC 16 16]))
    (mk_entry REALLOC 16 16) (by decide) (by decide) (by decide) (by decide) (by decide)
    (by decide)
  ⟨by decide, h.2.1, h.2.2.2.2.2.1⟩

/-! ### The verdict and the repair flag -/

theorem release_found_error_mono (ar : Bool) (i : Nat) (e : Entry) (addr : Nat) (s : State)
    (h : s.found_error = true) : (release ar i e addr s).found_error = true := by
  unfold release
  split
  · split
    · rfl
    · exact h
  · exact h

theorem release_phase_found_error_mono (ar : Bool) (i : Nat) (e : Entry) (s : State)
    (h : s.found_error = true) : (release_phase ar i e s).found_error = true := by
  unfold release_phase
  split
  · exact release_found_error_mono ar i e _ s h
  · exact release_found_error_mono ar i e _ s h
  · exact h

theorem register_found_error_mono (ar : Bool) (i : Nat) (e : Entry) (ptr : Nat) (s : State)
    (h : s.found_error = true) : (register ar i e ptr s).found_error = true := by
  unfold register
  split
  · split
    · split
      · split <;> rfl
      · rfl
    · exact h
  · exact h

theorem step_found_error_mono (ar : Bool) (i : Nat) (s : State)
    (h : s.found_error = true) : (step ar i s).found_error = true := by
  unfold step
  split
  · exact h
  · exact register_found_error_mono ar i _ _ _ (release_phase_found_error_mono ar i _ s h)

theorem release_flag_independent (i : Nat) (e : Entry) (addr : Nat) (s : State) :
    (release true i e addr s).found_error = (release false i e addr s).found_error ∧
    ((release false i e addr s).found_error = false →
      release true i e addr s = release false i e addr s) := by
  by_cases h0 : addr = 0
  · simp [release, h0]
  · cases hf : live_find s.live_ptrs addr with
    | none => simp [release, h0, hf]
    | some v => simp [release, h0, hf]

theorem release_phase_flag_independent (i : Nat) (e : Entry) (s : State) :
    (release_phase true i e s).found_error = (release_phase false i e s).found_error ∧
    ((release_phase false i e s).found_error = false →
      release_phase true i e s = release_phase false i e s) := by
  unfold release_phase
  split
  · exact release_flag_independent i e _ s
  · exact release_flag_independent i e _ s
  · simp

theorem register_flag_independent (i : Nat) (e : Entry) (ptr : Nat) (s : State) :
    (register true i e ptr s).found_error = (register false i e ptr s).found_error ∧
    ((register false i e ptr s).found_error = false →
      register true i e ptr s = register false i e ptr s) := by
  by_cases h0 : ptr = 0
  · simp [register, h0]
  · cases hf : live_find s.live_ptrs ptr with
    | none => simp [register, h0, hf]
    | some v =>
      cases hj : find_free ptr (s.entries.drop (i + 1)) (i + 1) <;>
        simp [register, h0, hf, hj]

theorem step_flag_independent (i : Nat) (st sf : State)
    (h : st.found_error = sf.found_error ∧ (sf.found_error = false → st = sf)) :
    (step true i st).found_error = (step false i sf).found_error ∧
    ((step false i sf).found_error = false → step true i st = step false i sf) := by
  cases hfe : sf.found_error with
  | true =>
    have h1 : (step true i st).found_error = true :=
      step_found_error_mono true i st (h.1.trans hfe)
    have h2 : (step false i sf).found_error = true := step_found_error_mono false i sf hfe
    exact ⟨h1.trans h2.symm, fun hc => absurd (h2.symm.trans hc) (by simp)⟩
  | false =>
    have hs : st = sf := h.2 hfe
    subst hs
    unfold step
    split
    · exact ⟨rfl, fun _ => rfl⟩
    · rename_i e _
      obtain ⟨r1, r2⟩ := release_phase_flag_independent i e st
      cases hr : (release_phase false i e st).found_error with
      | true =>
        have h1 := register_found_error_mono true i e (result_ptr e) _ (r1.trans hr)
        have h2 := register_found_error_mono false i e (result_ptr e) _ hr
        exact ⟨h1.trans h2.symm, fun hc => absurd (h2.symm.trans hc) (by simp)⟩
      | false =>
        rw [r2 hr]
        exact register_flag_independent i e (result_ptr e) _

theorem scan_flag_independent : ∀ (n i : Nat) (st sf : State),
    (st.found_error = sf.found_error ∧ (sf.found_error = false → st = sf)) →
    (scan true n i st).found_error = (scan false n i sf).found_error ∧
    ((scan false n i sf).found_error = false → scan true n i st = scan false n i sf) := by
  intro n
  induction n with
  | zero => intro i st sf h; exact h
  | succ n ih =>
    intro i st sf h
    exact ih (i + 1) _ _ (step_flag_independent i st sf h)

/-- C17: the verdict does not depend on attempt_repair: found_error after the scan
with attempt_repair equals found_error after the scan without it; and when the
trace is reported valid, the scan with attempt_repair ends in the very state of
the scan without it, so it has made no swap: its entries are the input and its
log has no swap. -/
theorem verdict_independent_of_repair (entries : List Entry) :
    (VerifyTrace true entries).found_error = (VerifyTrace false entries).found_error ∧
    ((VerifyTrace true entries).found_error = false →
      VerifyTrace true entries = VerifyTrace false entries ∧
      (VerifyTrace true entries).entries = entries ∧
      swap_count (VerifyTrace true entries).log = 0) := by
  obtain ⟨h1, h2⟩ := scan_flag_independent entries.length 0 (init_state entries)
    (init_state entries) ⟨rfl, fun _ => rfl⟩
  refine ⟨h1, ?_⟩
  intro hfe
  have heq : VerifyTrace true entries = VerifyTrace false entries := h2 (h1.symm.trans hfe)
  have hent : (VerifyTrace false entries).entries = entries := by
    simpa [VerifyTrace, init_state] using scan_entries_no_repair entries.length 0 (init_state entries)
  have hlog : (VerifyTrace true entries).log = [] := by
    by_contra hc
    have := (scan_flags entries).2 hc
    rw [hfe] at this
    exact absurd this (by simp)
  refine ⟨heq, by rw [heq]; exact hent, by rw [hlog]; simp [swap_count]⟩

/-- C17 (witness): MALLOC 16, FREE 16 is reported valid, and the scan with
attempt_repair leaves its entries as they are. -/
theorem verdict_independent_of_repair_witness :
    (VerifyTrace true [mk_entry MALLOC 16 0, mk_entry FREE 16 0]).found_error = false ∧
    (VerifyTrace true [mk_entry MALLOC 16 0, mk_entry FREE 16 0]).entries =
      [mk_entry MALLOC 16 0, mk_entry FREE 16 0] :=
  ⟨by decide,
    ((verdict_independent_of_repair [mk_entry MALLOC 16 0, mk_entry FREE 16 0]).2
      (by decide)).2.1⟩

/-! ### The invariant of the live-pointer map -/

theorem live_erase_eq_filter (m : LiveMap) (k : Nat) :
    live_erase m k = m.filter (fun x => decide (x.1 ≠ k)) := by
  induction m with
  | nil => simp [live_erase]
  | cons x xs ih =>
    obtain ⟨a, v⟩ := x
    by_cases h : a = k
    · simp [live_erase, h, ih]
    · simp [live_erase, h, ih]

theorem mem_live_erase (m : LiveMap) (k : Nat) (x : Nat × (Nat × Nat)) :
    x ∈ live_erase m k ↔ x ∈ m ∧ x.1 ≠ k := by
  rw [live_erase_eq_filter]
  simp

theorem live_erase_keys_nodup (m : LiveMap) (k : Nat) (h : (live_keys m).Nodup) :
    (live_keys (live_erase m k)).Nodup := by
  rw [live_keys_erase]
  exact h.filter _

theorem live_erase_lines_nodup (m : LiveMap) (k : Nat)
    (h : (m.map (fun x => x.2.2)).Nodup) :
    ((live_erase m k).map (fun x => x.2.2)).Nodup := by
  rw [live_erase_eq_filter]
  exact h.sublist ((List.filter_sublist m).map _)

theorem result_ptr_allocation (e : Entry) (h : result_ptr e ≠ 0) :
    is_allocation e ∧ e.ptr = result_ptr e := by
  unfold result_ptr at h ⊢
  unfold is_allocation
  cases ht : e.type <;> simp [ht] at h ⊢

theorem live_map_sound_mono (i : Nat) (s : State) (h : live_map_sound i s) :
    live_map_sound (i + 1) s := by
  obtain ⟨h1, h2, h3⟩ := h
  refine ⟨?_, h2, h3⟩
  intro p idx line hm
  obtain ⟨a, b, c, d⟩ := h1 p idx line hm
  exact ⟨a, b, by omega, d⟩

theorem live_map_sound_erase (i : Nat) (s : State) (k : Nat) (es : List Entry)
    (h : live_map_sound i s)
    (hes : ∀ idx, idx < i → es[idx]? = s.entries[idx]?) :
    live_map_sound i { s with live_ptrs := live_erase s.live_ptrs k, entries := es } := by
  obtain ⟨h1, h2, h3⟩ := h
  refine ⟨?_, live_erase_keys_nodup _ _ h2, live_erase_lines_nodup _ _ h3⟩
  intro p idx line hm
  obtain ⟨a, b, c, d⟩ := h1 p idx line ((mem_live_erase _ _ _).1 hm).1
  refine ⟨a, b, c, ?_⟩
  show ∃ e, es[idx]? = some e ∧ is_allocation e ∧ e.ptr = p
  rw [hes idx (by omega)]
  exact d

theorem release_sound (ar : Bool) (i : Nat) (e : Entry) (addr : Nat) (s : State)
    (h : live_map_sound i s) : live_map_sound i (release ar i e addr s) := by
  unfold release
  split
  · split
    · exact h
    · exact live_map_sound_erase i s addr s.entries h (fun _ _ => rfl)
  · exact h

theorem release_phase_sound (ar : Bool) (i : Nat) (e : Entry) (s : State)
    (h : live_map_sound i s) : live_map_sound i (release_phase ar i e s) := by
  unfold release_phase
  split
  · exact release_sound ar i e _ s h
  · exact release_sound ar i e _ s h
  · exact h

theorem register_sound (ar : Bool) (i : Nat) (e : Entry) (s : State)
    (he : s.entries[i]? = some e) (h : live_map_sound i s) :
    live_map_sound (i + 1) (register ar i e (result_ptr e) s) := by
  by_cases h0 : result_ptr e = 0
  · simpa [register, h0] using live_map_sound_mono i s h
  · cases hf : live_find s.live_ptrs (result_ptr e) with
    | none =>
      have hreg : register ar i e (result_ptr e) s =
          { s with live_ptrs := live_insert s.live_ptrs (result_ptr e) (i, i + 1) } := by
        simp [register, h0, hf]
      rw [hreg]
      obtain ⟨g1, g2, g3⟩ := live_map_sound_erase i s (result_ptr e) s.entries h (fun _ _ => rfl)
      obtain ⟨ha, hp⟩ := result_ptr_allocation e h0
      refine ⟨?_, ?_, ?_⟩
      · intro p idx line hm
        simp only [live_insert, List.mem_cons] at hm
        rcases hm with hm | hm
        · simp only [Prod.mk.injEq] at hm
          obtain ⟨q1, q2, q3⟩ := hm
          subst q1 q2 q3
          exact ⟨h0, rfl, le_refl _, e, he, ha, hp⟩
        · obtain ⟨a, b, c, d⟩ := g1 p idx line hm
          exact ⟨a, b, by omega, d⟩
      · show (live_keys (live_insert s.live_ptrs (result_ptr e) (i, i + 1))).Nodup
        simp only [live_insert, live_keys, List.map_cons, List.nodup_cons]
        refine ⟨?_, g2⟩
        intro hc
        exact ((mem_live_keys_erase _ _ _).1 hc).2 rfl
      · show ((live_insert s.live_ptrs (result_ptr e) (i, i + 1)).map (fun x => x.2.2)).Nodup
        simp only [live_insert, List.map_cons, List.nodup_cons]
        refine ⟨?_, g3⟩
        intro hc
        obtain ⟨x, hx, hxl⟩ := List.mem_map.1 hc
        obtain ⟨_, _, c, _⟩ := g1 x.1 x.2.1 x.2.2 hx
        omega
    | some old =>
      cases ar with
      | false =>
        have hreg : register false i e (result_ptr e) s =
            { s with
              found_error := true
              log := s.log ++ [Violation.duplicate (i + 1) (result_ptr e) old.2 e
                s.entries[old.1]? none] } := by
          simp [register, h0, hf]
        rw [hreg]
        exact live_map_sound_mono i _ h
      | true =>
        cases hj : find_free (result_ptr e) (s.entries.drop (i + 1)) (i + 1) with
        | none =>
          have hreg : register true i e (result_ptr e) s =
              { s with
                found_error := true
                error_repaired := false
                log := s.log ++ [Violation.duplicate (i + 1) (result_ptr e) old.2 e
                  s.entries[old.1]? none] } := by
            simp [register, h0, hf, hj]
          rw [hreg]
          exact live_map_sound_mono i _ h
        | some j =>
          have hreg : register true i e (result_ptr e) s =
              { entries := swap_entries s.entries i j
                live_ptrs := live_erase s.live_ptrs (result_ptr e)
                found_error := true
                error_repaired := true
                log := s.log ++ [Violation.duplicate (i + 1) (result_ptr e) old.2 e
                  s.entries[old.1]? (some j)] } := by
            simp [register, h0, hf, hj]
          rw [hreg]
          obtain ⟨hij, _⟩ := find_free_drop_some (result_ptr e) s.entries i j hj
          exact live_map_sound_mono i _
            (live_map_sound_erase i s (result_ptr e) (swap_entries s.entries i j) h
              (fun idx hidx =>
                swap_entries_getElem_other s.entries i j idx (by omega) (by omega)))

theorem step_sound (ar : Bool) (i : Nat) (s : State) (h : live_map_sound i s) :
    live_map_sound (i + 1) (step ar i s) := by
  unfold step
  split
  · exact live_map_sound_mono i s h
  · rename_i e he
    exact register_sound ar i e _ (by rw [release_phase_entries]; exact he)
      (release_phase_sound ar i e s h)

/-- C18: with either value of attempt_repair, after the first k positions of a trace
have been processed (swaps included) the live-pointer map is sound: every key
is non-zero and is recorded with the line n = index + 1, n at most k, at which
the entry array, as mutated so far, holds an allocation entry (MALLOC,
MEMALIGN, CALLOC or REALLOC) with the key as its address; no key and no line
occurs twice. And in a sound state no step, hence no swap, changes an entry
that the map refers to. -/
theorem live_map_invariant (attempt_repair : Bool) (entries : List Entry) (k : Nat) :
    live_map_sound k (scan attempt_repair k 0 (init_state entries)) ∧
    (∀ i s, live_map_sound i s → ∀ p idx line, (p, (idx, line)) ∈ s.live_ptrs →
      (step attempt_repair i s).entries[idx]? = s.entries[idx]?) := by
  constructor
  · have h := scan_induction attempt_repair live_map_sound
      (fun i s hs => step_sound attempt_repair i s hs) k 0 (init_state entries)
      ⟨by simp [init_state], by simp [init_state, live_keys], by simp [init_state]⟩
    simpa using h
  · intro i s hs p idx line hm
    obtain ⟨_, b, c, _⟩ := hs.1 p idx line hm
    exact step_getElem_lt attempt_repair i idx s (by omega)

/-- C18 (witness): after the first step on MALLOC 16, MALLOC 16, FREE 16 the map
holds 16 for index 0, and the swap of the next step leaves position 0 alone. -/
theorem live_map_invariant_witness :
    (16, (0, 1)) ∈ (scan true 1 0 (init_state
      [mk_entry MALLOC 16 0, mk_entry MALLOC 16 0, mk_entry FREE 16 0])).live_ptrs ∧
    (step true 1 (scan true 1 0 (init_state
      [mk_entry MALLOC 16 0, mk_entry MALLOC 16 0, mk_entry FREE 16 0]))).entries[0]? =
      (scan true 1 0 (init_state
        [mk_entry MALLOC 16 0, mk_entry MALLOC 16 0, mk_entry FREE 16 0])).entries[0]? :=
  ⟨by decide,
    (live_map_invariant true [mk_entry MALLOC 16 0, mk_entry MALLOC 16 0, mk_entry FREE 16 0]
      1).2 1 _
      (live_map_invariant true [mk_entry MALLOC 16 0, mk_entry MALLOC 16 0, mk_entry FREE 16 0]
        1).1 16 0 1 (by decide)⟩

/-! ### The report of a duplicate, the command line, MakeAllocationResident -/

/-- The general shape of a duplicate report. -/
theorem register_duplicate_log (ar : Bool) (i : Nat) (e : Entry) (ptr : Nat) (s : State)
    (old : Nat × Nat) (hp : ptr ≠ 0) (hold : live_find s.live_ptrs ptr = some old) :
    ∃ sw, (register ar i e ptr s).log =
      s.log ++ [Violation.duplicate (i + 1) ptr old.2 e s.entries[old.1]? sw] := by
  cases ar with
  | false => exact ⟨none, by simp [register, hp, hold]⟩
  | true =>
    cases hj : find_free ptr (s.entries.drop (i + 1)) (i + 1) with
    | none => exact ⟨none, by simp [register, hp, hold, hj]⟩
    | some j => exact ⟨some j, by simp [register, hp, hold, hj]⟩

/-- C15 (the code at the failing input): on two MALLOC entries of address 16, with
tid 1 and tid 2, the duplicate is reported for line 2 with the previous line
1, as the claim says; but the entry printed under "Original entry:" is the
entry of line 2, the one being scanned, and the entry printed under "Duplicate
pointer entry:" is the occupant registered at line 1. -/
theorem duplicate_report_labels_are_exchanged :
    (VerifyTrace false tagged_duplicate_trace).log =
      [Violation.duplicate 2 16 1
        { type := TypeEnum.MALLOC, ptr := 16, old_ptr := 0, tid := 2, size := 8, timestamp := 0 }
        (some { type := TypeEnum.MALLOC, ptr := 16, old_ptr := 0, tid := 1, size := 8,
                timestamp := 0 })
        none] ∧
    tagged_duplicate_trace[1]? =
      some { type := TypeEnum.MALLOC, ptr := 16, old_ptr := 0, tid := 2, size := 8,
             timestamp := 0 } := by
  decide

/-- The fuel of the loop is enough: when pagesize is positive and i never wraps
around, one more iteration allowed changes nothing. -/
theorem resident_loop_fuel (data n pagesize : Nat) (hp : 0 < pagesize)
    (hw : n + pagesize ≤ word) : ∀ (fuel i : Nat), n ≤ i + fuel →
    resident_loop data n pagesize (fuel + 1) i = resident_loop data n pagesize fuel i := by
  intro fuel
  induction fuel with
  | zero =>
    intro i hi
    have : ¬ i < n := by omega
    simp [resident_loop, this]
  | succ fuel ih =>
    intro i hi
    by_cases hlt : i < n
    · have hmod : (i + pagesize) % word = i + pagesize := Nat.mod_eq_of_lt (by omega)
      have := ih ((i + pagesize) % word) (by rw [hmod]; omega)
      conv => lhs; unfold resident_loop
      conv => rhs; unfold resident_loop
      simp only [hlt, if_true]
      rw [this]
    · simp [resident_loop, hlt]

/-- C20 (the code at the failing input): for ptr = 4112 (0x1010), nbytes = 4096,
present_bytes = -1 and pagesize = 4096 the function writes the addresses 4112
and 12272; the effective byte count is 4096, so the allocation ends before
8208 and the second write lies 8160 bytes after ptr, outside it: data is moved
to the aligned page and the index still starts at the distance to it. -/
theorem resident_write_outside_allocation :
    MakeAllocationResident 4112 4096 (-1) 4096 = [4112, 12272] ∧
    effective_bytes 4096 (-1) = 4096 ∧
    ¬ (12272 < 4112 + 4096) := by
  decide

/-- C12 (the code at the failing input): a command line whose first argument is
--attempt_recovery, the flag of the usage text, is answered by Usage() and
exit(1) whatever files follow, since the option table only has
"attempt_repair"; with --attempt_repair the files are verified with
attempt_repair set, and without a flag they are verified without it. -/
theorem documented_flag_is_rejected :
    (∀ prog files, main (prog :: "--attempt_recovery" :: files) =
      some (Outcome.usage_exit false)) ∧
    main ["verify_trace", "--attempt_recovery", "trace1", "trace2"] =
      some (Outcome.usage_exit false) ∧
    main ["verify_trace", "--attempt_repair", "trace1", "trace2"] =
      some (Outcome.verified [("trace1", true), ("trace2", true)]) ∧
    main ["verify_trace", "trace1", "trace2"] =
      some (Outcome.verified [("trace1", false), ("trace2", false)]) := by
  refine ⟨fun prog files => ?_, by decide, by decide, by decide⟩
  rfl

/-! ### Fresh allocations are interchangeable -/

theorem as_malloc_of_fresh (e : Entry) (h : is_fresh_allocation e) :
    as_malloc e = mk_entry TypeEnum.MALLOC e.ptr 0 := by
  simp [as_malloc, h]

theorem as_malloc_of_not_fresh (e : Entry) (h : ¬ is_fresh_allocation e) :
    as_malloc e = e := by
  simp [as_malloc, h]

theorem result_ptr_as_malloc (e : Entry) : result_ptr (as_malloc e) = result_ptr e := by
  by_cases h : is_fresh_allocation e
  · rw [as_malloc_of_fresh e h]
    rcases h with h | h | h | ⟨h, _⟩ <;> simp [result_ptr, mk_entry, h]
  · rw [as_malloc_of_not_fresh e h]

theorem as_malloc_free_iff (e : Entry) (ptr : Nat) :
    ((as_malloc e).type = TypeEnum.FREE ∧ (as_malloc e).ptr = ptr) ↔
      (e.type = TypeEnum.FREE ∧ e.ptr = ptr) := by
  by_cases h : is_fresh_allocation e
  · rw [as_malloc_of_fresh e h]
    have : e.type ≠ TypeEnum.FREE := by
      rcases h with h | h | h | ⟨h, _⟩ <;> simp [h]
    simp [mk_entry, this]
  · rw [as_malloc_of_not_fresh e h]

theorem find_free_as_malloc (ptr : Nat) (l : List Entry) : ∀ (j : Nat),
    find_free ptr (l.map as_malloc) j = find_free ptr l j := by
  induction l with
  | nil => intro j; rfl
  | cons x xs ih =>
    intro j
    simp only [List.map_cons, find_free, as_malloc_free_iff, ih]

theorem swap_entries_as_malloc (l : List Entry) (i j : Nat) :
    swap_entries (l.map as_malloc) i j = (swap_entries l i j).map as_malloc := by
  unfold swap_entries
  simp only [List.getElem?_map]
  cases hi : l[i]? <;> cases hj : l[j]? <;> simp [List.map_set]

theorem release_as_malloc (ar : Bool) (i : Nat) (e : Entry) (addr : Nat) (s : State)
    (he : as_malloc e = e) :
    release ar i e addr (as_malloc_state s) = as_malloc_state (release ar i e addr s) := by
  by_cases h0 : addr = 0
  · simp [release, h0]
  · cases hf : live_find s.live_ptrs addr with
    | none => simp [release, h0, hf, as_malloc_state, as_malloc_violation, he]
    | some v => simp [release, h0, hf, as_malloc_state]

theorem release_phase_as_malloc (ar : Bool) (i : Nat) (e : Entry) (s : State) :
    release_phase ar i (as_malloc e) (as_malloc_state s) =
      as_malloc_state (release_phase ar i e s) := by
  by_cases h : is_fresh_allocation e
  · rw [as_malloc_of_fresh e h]
    rcases h with h | h | h | ⟨h, h1⟩
    · simp [release_phase, mk_entry, h]
    · simp [release_phase, mk_entry, h]
    · simp [release_phase, mk_entry, h]
    · simp [release_phase, mk_entry, h, h1, release_zero]
  · have he := as_malloc_of_not_fresh e h
    rw [he]
    unfold release_phase
    split
    · exact release_as_malloc ar i e _ s he
    · exact release_as_malloc ar i e _ s he
    · rfl

theorem register_as_malloc (ar : Bool) (i : Nat) (e : Entry) (ptr : Nat) (s : State) :
    register ar i (as_malloc e) ptr (as_malloc_state s) =
      as_malloc_state (register ar i e ptr s) := by
  by_cases h0 : ptr = 0
  · simp [register, h0]
  · cases hf : live_find s.live_ptrs ptr with
    | none => simp [register, h0, hf, as_malloc_state]
    | some old =>
      have hfind : find_free ptr ((s.entries.map as_malloc).drop (i + 1)) (i + 1) =
          find_free ptr (s.entries.drop (i + 1)) (i + 1) := by
        rw [← List.map_drop, find_free_as_malloc]
      cases ar with
      | false =>
        simp [register, h0, hf, as_malloc_state, as_malloc_violation]
      | true =>
        cases hj : find_free ptr (s.entries.drop (i + 1)) (i + 1) with
        | none =>
          simp [register, h0, hf, as_malloc_state, as_malloc_violation, hfind, hj]
        | some j =>
          simp [register, h0, hf, as_malloc_state, as_malloc_violation, hfind, hj,
            swap_entries_as_malloc]

theorem step_as_malloc (ar : Bool) (i : Nat) (s : State) :
    step ar i (as_malloc_state s) = as_malloc_state (step ar i s) := by
  unfold step
  have hget : (as_malloc_state s).entries[i]? = (s.entries[i]?).map as_malloc := by
    simp [as_malloc_state]
  rw [hget]
  cases he : s.entries[i]? with
  | none => simp
  | some e =>
    simp only [Option.map_some']
    rw [result_ptr_as_malloc, release_phase_as_malloc, register_as_malloc]

theorem scan_as_malloc (ar : Bool) : ∀ (n i : Nat) (s : State),
    scan ar n i (as_malloc_state s) = as_malloc_state (scan ar n i s) := by
  intro n
  induction n with
  | zero => intro i s; rfl
  | succ n ih => intro i s; simp only [scan]; rw [step_as_malloc, ih]

theorem same_allocation_iff (e1 e2 : Entry) :
    same_allocation e1 e2 ↔ as_malloc e1 = as_malloc e2 := by
  constructor
  · rintro (h | ⟨h1, h2, h3⟩)
    · rw [h]
    · rw [as_malloc_of_fresh e1 h1, as_malloc_of_fresh e2 h2, h3]
  · intro h
    by_cases h1 : is_fresh_allocation e1
    · by_cases h2 : is_fresh_allocation e2
      · right
        rw [as_malloc_of_fresh e1 h1, as_malloc_of_fresh e2 h2] at h
        exact ⟨h1, h2, by simpa [mk_entry] using h⟩
      · exfalso
        rw [as_malloc_of_fresh e1 h1, as_malloc_of_not_fresh e2 h2] at h
        apply h2
        left
        rw [← h]
        rfl
    · by_cases h2 : is_fresh_allocation e2
      · exfalso
        rw [as_malloc_of_not_fresh e1 h1, as_malloc_of_fresh e2 h2] at h
        apply h1
        left
        rw [h]
        rfl
      · left
        rw [as_malloc_of_not_fresh e1 h1, as_malloc_of_not_fresh e2 h2] at h
        exact h

theorem same_allocation_lists (l1 : List Entry) : ∀ (l2 : List Entry),
    List.Forall₂ same_allocation l1 l2 ↔ l1.map as_malloc = l2.map as_malloc := by
  induction l1 with
  | nil =>
    intro l2
    cases l2 <;> simp
  | cons x xs ih =>
    intro l2
    cases l2 with
    | nil => simp
    | cons y ys => simp [List.forall₂_cons, ih ys, same_allocation_iff]

theorem violation_shape_as_malloc (v : Violation) :
    violation_shape (as_malloc_violation v) = violation_shape v := by
  cases v <;> rfl

theorem verify_as_malloc (ar : Bool) (es : List Entry) :
    VerifyTrace ar (es.map as_malloc) = as_malloc_state (VerifyTrace ar es) := by
  unfold VerifyTrace
  rw [← scan_as_malloc]
  simp [init_state, as_malloc_state]

/-- C14: a REALLOC with old pointer 0 acts like a fresh allocate. When two traces
differ only in that fresh allocations (MALLOC, MEMALIGN, CALLOC, REALLOC with
old pointer 0) are exchanged for fresh allocations of the same address, the
scan, with either value of attempt_repair, gives the same found_error, the same
error_repaired, the same violations (kind, line, address, previous line) with
the same swaps, the same live-pointer map, and resulting entries that again
differ only by such exchanges. -/
theorem fresh_allocations_are_interchangeable (attempt_repair : Bool)
    (entries1 entries2 : List Entry)
    (h : List.Forall₂ same_allocation entries1 entries2) :
    (VerifyTrace attempt_repair entries1).found_error =
      (VerifyTrace attempt_repair entries2).found_error ∧
    (VerifyTrace attempt_repair entries1).error_repaired =
      (VerifyTrace attempt_repair entries2).error_repaired ∧
    (VerifyTrace attempt_repair entries1).log.map violation_shape =
      (VerifyTrace attempt_repair entries2).log.map violation_shape ∧
    (VerifyTrace attempt_repair entries1).live_ptrs =
      (VerifyTrace attempt_repair entries2).live_ptrs ∧
    List.Forall₂ same_allocation (VerifyTrace attempt_repair entries1).entries
      (VerifyTrace attempt_repair entries2).entries := by
  have hmap := (same_allocation_lists entries1 entries2).1 h
  have heq : as_malloc_state (VerifyTrace attempt_repair entries1) =
      as_malloc_state (VerifyTrace attempt_repair entries2) := by
    rw [← verify_as_malloc, ← verify_as_malloc, hmap]
  have hfe := congrArg State.found_error heq
  have her := congrArg State.error_repaired heq
  have hlive := congrArg State.live_ptrs heq
  have hlog := congrArg (fun s => s.log.map violation_shape) heq
  have hent := congrArg State.entries heq
  refine ⟨hfe, her, ?_, hlive, ?_⟩
  · simpa [as_malloc_state, List.map_map, Function.comp_def, violation_shape_as_malloc]
      using hlog
  · exact (same_allocation_lists _ _).2 hent

/-- C14 (witness): the duplicate and its repair are the same whether the second
entry is a REALLOC with old pointer 0 or a CALLOC. -/
theorem fresh_allocations_are_interchangeable_witness :
    List.Forall₂ same_allocation
      [mk_entry MALLOC 16 0, mk_entry REALLOC 16 0, mk_entry FREE 16 0]
      [mk_entry MEMALIGN 16 0, mk_entry CALLOC 16 0, mk_entry FREE 16 0] ∧
    (VerifyTrace true
      [mk_entry MALLOC 16 0, mk_entry REALLOC 16 0, mk_entry FREE 16 0]).log.map violation_shape =
    (VerifyTrace true
      [mk_entry MEMALIGN 16 0, mk_entry CALLOC 16 0, mk_entry FREE 16 0]).log.map violation_shape :=
  ⟨List.Forall₂.cons (by decide)
      (List.Forall₂.cons (by decide) (List.Forall₂.cons (by decide) List.Forall₂.nil)),
    (fresh_allocations_are_interchangeable true
      [mk_entry MALLOC 16 0, mk_entry REALLOC 16 0, mk_entry FREE 16 0]
      [mk_entry MEMALIGN 16 0, mk_entry CALLOC 16 0, mk_entry FREE 16 0]
      (List.Forall₂.cons (by decide)
        (List.Forall₂.cons (by decide) (List.Forall₂.cons (by decide) List.Forall₂.nil)))).2.2.1⟩

/-! ### A fresh scan of the repaired entries -/

theorem unrepaired_append (l1 l2 : List Violation) :
    unrepaired_violations (l1 ++ l2) = unrepaired_violations l1 ++ unrepaired_violations l2 := by
  simp [unrepaired_violations, List.filterMap_append]

theorem live_find_some_mem (m : LiveMap) (k : Nat) (v : Nat × Nat)
    (h : live_find m k = some v) : (k, v) ∈ m := by
  induction m with
  | nil => simp [live_find] at h
  | cons x xs ih =>
    obtain ⟨a, w⟩ := x
    by_cases ha : a = k
    · simp [live_find, ha] at h
      subst h
      simp [ha]
    · simp only [live_find, if_neg ha] at h
      exact List.mem_cons_of_mem _ (ih h)

/-- The release of the rescan follows the release of the repairing scan. -/
theorem release_rescan (i : Nat) (e : Entry) (addr : Nat) (s t : State)
    (hl : t.live_ptrs = s.live_ptrs) (hlog : t.log = unrepaired_violations s.log) :
    (release false i e addr t).live_ptrs = (release true i e addr s).live_ptrs ∧
    (release false i e addr t).log = unrepaired_violations (release true i e addr s).log ∧
    (release false i e addr t).entries = t.entries := by
  by_cases h0 : addr = 0
  · simp [release, h0, hl, hlog]
  · cases hf : live_find s.live_ptrs addr with
    | none =>
      simp [release, h0, hf, hl, hlog, unrepaired_append]
      simp [unrepaired_violations]
    | some v => simp [release, h0, hf, hl, hlog]

/-- The registration of the rescan follows a registration of the repairing scan
that does not swap. -/
theorem register_rescan (i : Nat) (e : Entry) (ptr : Nat) (s t : State)
    (hs : live_map_sound i s)
    (hl : t.live_ptrs = s.live_ptrs) (hlog : t.log = unrepaired_violations s.log)
    (hent : ∀ k, k < i → t.entries[k]? = s.entries[k]?)
    (hno : ptr ≠ 0 → live_find s.live_ptrs ptr ≠ none →
      find_free ptr (s.entries.drop (i + 1)) (i + 1) = none) :
    (register false i e ptr t).live_ptrs = (register true i e ptr s).live_ptrs ∧
    (register false i e ptr t).log = unrepaired_violations (register true i e ptr s).log := by
  by_cases h0 : ptr = 0
  · simp [register, h0, hl, hlog]
  · cases hf : live_find s.live_ptrs ptr with
    | none => simp [register, h0, hf, hl, hlog]
    | some old =>
      have hj := hno h0 (by rw [hf]; simp)
      have hmem := live_find_some_mem _ _ _ hf
      obtain ⟨_, b, c, _⟩ := hs.1 ptr old.1 old.2 hmem
      have hold : t.entries[old.1]? = s.entries[old.1]? := hent old.1 (by omega)
      simp [register, h0, hf, hl, hlog, hj, unrepaired_append, hold]
      simp [unrepaired_violations]

theorem register_entries_of_no_swap (i : Nat) (e : Entry) (ptr : Nat) (s : State)
    (hno : ptr ≠ 0 → live_find s.live_ptrs ptr ≠ none →
      find_free ptr (s.entries.drop (i + 1)) (i + 1) = none) :
    (register true i e ptr s).entries = s.entries := by
  by_cases h0 : ptr = 0
  · simp [register, h0]
  · cases hf : live_find s.live_ptrs ptr with
    | none => simp [register, h0, hf]
    | some old =>
      have hj := hno h0 (by rw [hf]; simp)
      simp [register, h0, hf, hj]

theorem release_phase_rescan (i : Nat) (e : Entry) (s t : State)
    (hl : t.live_ptrs = s.live_ptrs) (hlog : t.log = unrepaired_violations s.log) :
    (release_phase false i e t).live_ptrs = (release_phase true i e s).live_ptrs ∧
    (release_phase false i e t).log = unrepaired_violations (release_phase true i e s).log ∧
    (release_phase false i e t).entries = t.entries := by
  unfold release_phase
  split
  · exact release_rescan i e _ s t hl hlog
  · exact release_rescan i e _ s t hl hlog
  · exact ⟨hl, hlog, rfl⟩

theorem release_phase_of_fresh (ar : Bool) (i : Nat) (e : Entry) (s : State)
    (h : is_fresh_allocation e) : release_phase ar i e s = s := by
  rcases h with h | h | h | ⟨h, h1⟩
  · simp [release_phase, h]
  · simp [release_phase, h]
  · simp [release_phase, h]
  · simp [release_phase, h, h1, release_zero]

theorem fresh_of_result_ptr (e : Entry) (hp : result_ptr e ≠ 0)
    (hnr : ¬ (e.type = TypeEnum.REALLOC ∧ e.old_ptr ≠ 0)) : is_fresh_allocation e := by
  obtain ⟨ha, _⟩ := result_ptr_allocation e hp
  rcases ha with h | h | h | h
  · exact Or.inl h
  · exact Or.inr (Or.inl h)
  · exact Or.inr (Or.inr (Or.inl h))
  · refine Or.inr (Or.inr (Or.inr ⟨h, ?_⟩))
    by_contra hc
    exact hnr ⟨h, hc⟩

/-- One step of the rescan follows one step of the repairing scan. -/
theorem step_rescan (i : Nat) (s t : State) (e : Entry)
    (he : s.entries[i]? = some e)
    (hnr : ¬ (e.type = TypeEnum.REALLOC ∧ e.old_ptr ≠ 0))
    (hs : live_map_sound i s)
    (hl : t.live_ptrs = s.live_ptrs) (hlog : t.log = unrepaired_violations s.log)
    (hent : ∀ k, k < i → t.entries[k]? = s.entries[k]?)
    (hti : t.entries[i]? = (step true i s).entries[i]?) :
    (step false i t).live_ptrs = (step true i s).live_ptrs ∧
    (step false i t).log = unrepaired_violations (step true i s).log := by
  have hstep : step true i s =
      register true i e (result_ptr e) (release_phase true i e s) := by
    simp [step, he]
  have hent1 : (release_phase true i e s).entries = s.entries := release_phase_entries true i e s
  by_cases hsw : result_ptr e ≠ 0 ∧
      live_find (release_phase true i e s).live_ptrs (result_ptr e) ≠ none ∧
      find_free (result_ptr e) (s.entries.drop (i + 1)) (i + 1) ≠ none
  · obtain ⟨hp, hfind, hfree⟩ := hsw
    have hfresh := fresh_of_result_ptr e hp hnr
    have hrp : release_phase true i e s = s := release_phase_of_fresh true i e s hfresh
    rw [hrp] at hfind
    obtain ⟨old, hold⟩ := Option.ne_none_iff_exists'.1 hfind
    obtain ⟨j, hj⟩ := Option.ne_none_iff_exists'.1 hfree
    obtain ⟨hij, f, hfj, hft, hfp, _⟩ := find_free_drop_some (result_ptr e) s.entries i j hj
    have hs1 : step true i s =
        { entries := swap_entries s.entries i j
          live_ptrs := live_erase s.live_ptrs (result_ptr e)
          found_error := true
          error_repaired := true
          log := s.log ++ [Violation.duplicate (i + 1) (result_ptr e) old.2 e
            s.entries[old.1]? (some j)] } := by
      rw [hstep, hrp]
      simp [register, hp, hold, hj]
    have htf : t.entries[i]? = some f := by
      rw [hti, hs1]
      exact swap_entries_getElem_left s.entries i j e f he hfj (by omega)
    have hold1 : live_find t.live_ptrs (result_ptr e) = some old := by rw [hl]; exact hold
    have hrf : result_ptr f = 0 := by simp [result_ptr, hft]
    have ht1 : step false i t = { t with live_ptrs := live_erase t.live_ptrs (result_ptr e) } := by
      have h1 : step false i t =
          register false i f (result_ptr f) (release_phase false i f t) := by
        simp only [step, htf]
      have h2 : release_phase false i f t = release false i f f.ptr t := by
        simp [release_phase, hft]
      rw [h1, hrf, register_zero, h2, hfp]
      simp [release, hp, hold1]
    rw [ht1, hs1]
    refine ⟨by simp [hl], ?_⟩
    simp [hlog, unrepaired_append]
    simp [unrepaired_violations]
  · have hno : result_ptr e ≠ 0 →
        live_find (release_phase true i e s).live_ptrs (result_ptr e) ≠ none →
        find_free (result_ptr e) ((release_phase true i e s).entries.drop (i + 1)) (i + 1) =
          none := by
      intro h1 h2
      rw [hent1]
      by_contra h3
      exact hsw ⟨h1, h2, h3⟩
    have hse : (step true i s).entries = s.entries := by
      rw [hstep, register_entries_of_no_swap i e _ _ hno, hent1]
    have hte : t.entries[i]? = some e := by rw [hti, hse]; exact he
    have htstep : step false i t =
        register false i e (result_ptr e) (release_phase false i e t) := by
      simp [step, hte]
    obtain ⟨r1, r2, r3⟩ := release_phase_rescan i e s t hl hlog
    rw [htstep, hstep]
    exact register_rescan i e (result_ptr e) _ _ (release_phase_sound true i e s hs) r1 r2
      (by intro k hk; rw [r3, hent1]; exact hent k hk) hno

theorem scan_rescan : ∀ (n i : Nat) (s t : State),
    no_realloc_release s.entries → live_map_sound i s →
    t.live_ptrs = s.live_ptrs → t.log = unrepaired_violations s.log →
    t.entries = (scan true n i s).entries →
    (scan false n i t).live_ptrs = (scan true n i s).live_ptrs ∧
    (scan false n i t).log = unrepaired_violations (scan true n i s).log := by
  intro n
  induction n with
  | zero => intro i s t _ _ hl hlog _; exact ⟨hl, hlog⟩
  | succ n ih =>
    intro i s t hnr hs hl hlog hent
    simp only [scan] at hent ⊢
    have hti : t.entries[i]? = (step true i s).entries[i]? := by
      rw [hent, scan_getElem_lt true n (i + 1) i _ (by omega)]
    have hlt : ∀ k, k < i → t.entries[k]? = s.entries[k]? := by
      intro k hk
      rw [hent, scan_getElem_lt true n (i + 1) k _ (by omega), step_getElem_lt true i k s hk]
    have hnr1 : no_realloc_release (step true i s).entries := by
      intro e he
      exact hnr e ((step_perm true i s).mem_iff.1 he)
    have hent1 : (step false i t).entries = (scan true n (i + 1) (step true i s)).entries := by
      rw [step_entries_no_repair]; exact hent
    cases he : s.entries[i]? with
    | none =>
      have hs1 : step true i s = s := by simp [step, he]
      have ht1 : step false i t = t := by
        rw [hs1, he] at hti
        simp [step, hti]
      rw [ht1] at hent1 ⊢
      rw [hs1] at hent1 hnr1 ⊢
      exact ih (i + 1) s t hnr (live_map_sound_mono i s hs) hl hlog hent1
    | some e =>
      obtain ⟨g1, g2⟩ := step_rescan i s t e he (hnr e (List.getElem?_mem he)) hs hl hlog hlt hti
      exact ih (i + 1) (step true i s) (step false i t) hnr1 (step_sound true i s hs) g1 g2 hent1

theorem release_found_error_log (ar : Bool) (i : Nat) (e : Entry) (addr : Nat) (s : State)
    (h : s.found_error = true → s.log ≠ []) :
    (release ar i e addr s).found_error = true → (release ar i e addr s).log ≠ [] := by
  unfold release
  split
  · split
    · intro _; simp
    · exact h
  · exact h

theorem step_found_error_log (ar : Bool) (i : Nat) (s : State)
    (h : s.found_error = true → s.log ≠ []) :
    (step ar i s).found_error = true → (step ar i s).log ≠ [] := by
  unfold step
  split
  · exact h
  · rename_i e _
    have h1 : (release_phase ar i e s).found_error = true → (release_phase ar i e s).log ≠ [] := by
      unfold release_phase
      split
      · exact release_found_error_log ar i e _ s h
      · exact release_found_error_log ar i e _ s h
      · exact h
    unfold register
    split
    · split
      · split
        · split <;> (intro _; simp)
        · intro _; simp
      · exact h1
    · exact h1

/-- C19: for a trace without a REALLOC that has a non-zero old pointer, a fresh scan
without attempt_repair of the entries produced by the scan with attempt_repair
reports exactly the violations of the repairing scan that were not repaired
by a swap, with the same lines, kinds, addresses and printed entries, and ends
with the same live-pointer map; in particular, when every violation of the
repairing scan was a duplicate repaired by a swap, the fresh scan reports
nothing and the produced entries are valid. -/
theorem rescan_reports_unrepaired_violations (entries : List Entry)
    (h : no_realloc_release entries) :
    (VerifyTrace false (VerifyTrace true entries).entries).log =
      unrepaired_violations (VerifyTrace true entries).log ∧
    (VerifyTrace false (VerifyTrace true entries).entries).live_ptrs =
      (VerifyTrace true entries).live_ptrs ∧
    ((∀ v ∈ (VerifyTrace true entries).log,
        ∃ line p prev o d j, v = Violation.duplicate line p prev o d (some j)) →
      (VerifyTrace false (VerifyTrace true entries).entries).log = [] ∧
      (VerifyTrace false (VerifyTrace true entries).entries).found_error = false) := by
  have hlen : (VerifyTrace true entries).entries.length = entries.length := by
    simpa [VerifyTrace, init_state] using scan_length true entries.length 0 (init_state entries)
  obtain ⟨h1, h2⟩ := scan_rescan entries.length 0 (init_state entries)
    (init_state (VerifyTrace true entries).entries) h
    ⟨by simp [init_state], by simp [init_state, live_keys], by simp [init_state]⟩
    rfl (by simp [init_state, unrepaired_violations]) rfl
  have hlog : (VerifyTrace false (VerifyTrace true entries).entries).log =
      unrepaired_violations (VerifyTrace true entries).log := by
    unfold VerifyTrace at hlen ⊢
    rw [hlen]; exact h2
  have hlive : (VerifyTrace false (VerifyTrace true entries).entries).live_ptrs =
      (VerifyTrace true entries).live_ptrs := by
    unfold VerifyTrace at hlen ⊢
    rw [hlen]; exact h1
  refine ⟨hlog, hlive, ?_⟩
  intro hall
  have hnil : (VerifyTrace false (VerifyTrace true entries).entries).log = [] := by
    rw [hlog]
    unfold unrepaired_violations
    rw [List.filterMap_eq_nil_iff]
    intro v hv
    obtain ⟨line, p, prev, o, d, j, hvj⟩ := hall v hv
    subst hvj
    rfl
  refine ⟨hnil, ?_⟩
  have hinv := scan_induction false (fun _ s => s.found_error = true → s.log ≠ [])
    (fun i s hs => step_found_error_log false i s hs)
    (VerifyTrace true entries).entries.length 0
    (init_state (VerifyTrace true entries).entries) (by simp [init_state])
  cases hfe : (VerifyTrace false (VerifyTrace true entries).entries).found_error with
  | false => rfl
  | true => exact absurd hnil (hinv hfe)

/-- C19 (witness): on FREE 5, MALLOC 1, MALLOC 1, FREE 1 the repairing scan swaps the
duplicate, and the fresh scan of its result reports the release of the unknown
address 5 only. -/
theorem rescan_reports_unrepaired_violations_witness :
    no_realloc_release unknown_release_and_duplicate_trace ∧
    (VerifyTrace false (VerifyTrace true unknown_release_and_duplicate_trace).entries).log =
      unrepaired_violations (VerifyTrace true unknown_release_and_duplicate_trace).log ∧
    unrepaired_violations (VerifyTrace true unknown_release_and_duplicate_trace).log =
      [Violation.unknown_free 1 5 (mk_entry FREE 5 0) false] :=
  ⟨by decide,
    (rescan_reports_unrepaired_violations unknown_release_and_duplicate_trace (by decide)).1,
    by decide⟩

/-! ### Every duplicate gets its own repair attempt -/

theorem scan_succ_right (ar : Bool) (k i : Nat) (s : State) :
    scan ar (k + 1) i s = step ar (i + k) (scan ar k i s) := by
  rw [scan_add ar k 1 i s]
  rfl

/-- The log of a step that meets a duplicate, and what it does to the entries. -/
theorem step_duplicate (i : Nat) (s : State) (e : Entry)
    (he : s.entries[i]? = some e) (hp : result_ptr e ≠ 0)
    (hlive : result_ptr e ∈ live_keys (release_phase true i e s).live_ptrs) :
    ∃ prev d,
      (step true i s).log = (release_phase true i e s).log ++
        [Violation.duplicate (i + 1) (result_ptr e) prev e d
          (find_free (result_ptr e) (s.entries.drop (i + 1)) (i + 1))] ∧
      (step true i s).entries =
        (match find_free (result_ptr e) (s.entries.drop (i + 1)) (i + 1) with
          | some j => swap_entries s.entries i j
          | none => s.entries) := by
  obtain ⟨old, hold⟩ := (live_find_isSome_iff _ _).2 hlive
  have hent : (release_phase true i e s).entries = s.entries := release_phase_entries true i e s
  refine ⟨old.2, s.entries[old.1]?, ?_⟩
  cases hj : find_free (result_ptr e) (s.entries.drop (i + 1)) (i + 1) with
  | none => simp [step, he, register, hp, hold, hent, hj]
  | some j => simp [step, he, register, hp, hold, hent, hj]

theorem release_new_violations (i : Nat) (e : Entry) (addr : Nat) (s s1 : State) :
    ∀ l, (release true i e addr s).log = s.log ++ l → ∀ v ∈ l, violation_history i s s1 v := by
  intro l hl v hv
  by_cases h0 : addr = 0
  · simp [release, h0] at hl
    subst hl
    simp at hv
  · cases hf : live_find s.live_ptrs addr with
    | none =>
      simp [release, h0, hf] at hl
      subst hl
      simp at hv
      subst hv
      simp [violation_history]
    | some w =>
      simp [release, h0, hf] at hl
      subst hl
      simp at hv

theorem release_phase_new_violations (i : Nat) (e : Entry) (s s1 : State) :
    ∀ l, (release_phase true i e s).log = s.log ++ l →
      ∀ v ∈ l, violation_history i s s1 v := by
  unfold release_phase
  split
  · exact release_new_violations i e _ s s1
  · exact release_new_violations i e _ s s1
  · intro l hl v hv
    have : l = [] := by simpa using hl
    subst this
    simp at hv

/-- Every violation that a repairing step prints is described by violation_history. -/
theorem step_new_violations (i : Nat) (s : State) :
    ∀ l, (step true i s).log = s.log ++ l →
      ∀ v ∈ l, violation_history i s (step true i s) v := by
  intro l hl v hv
  cases he : s.entries[i]? with
  | none =>
    have hs : step true i s = s := by simp [step, he]
    rw [hs] at hl
    have : l = [] := by simpa using hl
    subst this
    simp at hv
  | some e =>
    obtain ⟨l1, hl1⟩ := release_phase_log true i e s
    have hstep : step true i s =
        register true i e (result_ptr e) (release_phase true i e s) := by simp [step, he]
    by_cases hdup : result_ptr e ≠ 0 ∧
        result_ptr e ∈ live_keys (release_phase true i e s).live_ptrs
    · obtain ⟨prev, d, g1, g2⟩ := step_duplicate i s e he hdup.1 hdup.2
      rw [g1, hl1, List.append_assoc] at hl
      have hl2 := List.append_cancel_left hl
      rw [← hl2] at hv
      rcases List.mem_append.1 hv with hv1 | hv1
      · exact release_phase_new_violations i e s _ l1 hl1 v hv1
      · simp at hv1
        subst hv1
        exact ⟨rfl, he, rfl, hdup.1, hdup.2, rfl, g2⟩
    · have hlog : (step true i s).log = (release_phase true i e s).log := by
        rw [hstep]
        by_cases h0 : result_ptr e = 0
        · simp [register, h0]
        · have hnl : live_find (release_phase true i e s).live_ptrs (result_ptr e) = none :=
            (live_find_eq_none_iff _ _).2 (fun hc => hdup ⟨h0, hc⟩)
          simp [register, h0, hnl]
      rw [hlog] at hl
      exact release_phase_new_violations i e s _ l hl v hv

/-- Every violation in the log after n steps of the repairing scan was printed by
one of these steps, as violation_history describes. -/
theorem log_history (entries : List Entry) : ∀ (n : Nat),
    ∀ v ∈ (scan true n 0 (init_state entries)).log,
      ∃ k, k < n ∧ violation_history k (scan true k 0 (init_state entries))
        (scan true (k + 1) 0 (init_state entries)) v := by
  intro n
  induction n with
  | zero => intro v hv; simp [scan, init_state] at hv
  | succ n ih =>
    intro v hv
    have hs := scan_succ_right true n 0 (init_state entries)
    simp only [Nat.zero_add] at hs
    obtain ⟨l, hl⟩ := step_log true n (scan true n 0 (init_state entries))
    rw [hs, hl] at hv
    rcases List.mem_append.1 hv with hv1 | hv1
    · obtain ⟨k, hk, hh⟩ := ih v hv1
      exact ⟨k, by omega, hh⟩
    · refine ⟨n, by omega, ?_⟩
      rw [hs]
      exact step_new_violations n _ l hl v hv1

/-- The forward search finds something exactly when a FREE of the address stands
at a later position. -/
theorem find_free_eq_none_iff (ptr : Nat) (es : List Entry) (i : Nat) :
    find_free ptr (es.drop (i + 1)) (i + 1) = none ↔
      ¬ ∃ m f, i < m ∧ es[m]? = some f ∧ f.type = TypeEnum.FREE ∧ f.ptr = ptr := by
  constructor
  · intro hn
    rintro ⟨m, f, hm, hf, hft, hfp⟩
    obtain ⟨j, hj⟩ := find_free_exists ptr es i m f hm hf hft hfp
    rw [hn] at hj
    exact absurd hj (by simp)
  · intro hno
    cases hj : find_free ptr (es.drop (i + 1)) (i + 1) with
    | none => rfl
    | some j =>
      exfalso
      obtain ⟨hij, f, hfj, hft, hfp, _⟩ := find_free_drop_some ptr es i j hj
      exact hno ⟨j, f, hij, hfj, hft, hfp⟩

theorem scan_log_le (entries : List Entry) (k n : Nat) (h : k ≤ n) :
    ∃ l, (scan true n 0 (init_state entries)).log =
      (scan true k 0 (init_state entries)).log ++ l := by
  have hn : n = k + (n - k) := by omega
  rw [hn, scan_add true k (n - k) 0 (init_state entries)]
  exact scan_log true (n - k) (0 + k) _

/-- C9 (amended): the scan with attempt_repair makes one repair attempt for every
duplicate violation, not only for the first. Whenever the entry at position k
of the sequence as it stands after k steps returns a non-zero address that is
live after the switch, a duplicate violation for line k + 1 is logged; if a
FREE of the address stands at a later position at that moment, the step
exchanges position k with such a position j (the one recorded with the
violation), and if none does, nothing is recorded and the entries stay as they
are. Conversely every logged duplicate violation comes from such a step, and
it has no swap partner exactly when no FREE of its address stood at a later
position. The resulting entries differ from the input in at most two positions
for each swap. -/
theorem scan_swaps_once_per_duplicate (entries : List Entry) :
    (∀ k e, (scan true k 0 (init_state entries)).entries[k]? = some e →
      result_ptr e ≠ 0 →
      result_ptr e ∈
        live_keys (release_phase true k e (scan true k 0 (init_state entries))).live_ptrs →
      ∃ prev d sw,
        Violation.duplicate (k + 1) (result_ptr e) prev e d sw ∈ (VerifyTrace true entries).log ∧
        ((∃ m f, k < m ∧ (scan true k 0 (init_state entries)).entries[m]? = some f ∧
            f.type = TypeEnum.FREE ∧ f.ptr = result_ptr e) →
          ∃ j f, sw = some j ∧ k < j ∧
            (scan true k 0 (init_state entries)).entries[j]? = some f ∧
            f.type = TypeEnum.FREE ∧ f.ptr = result_ptr e ∧
            (scan true (k + 1) 0 (init_state entries)).entries =
              swap_entries (scan true k 0 (init_state entries)).entries k j) ∧
        ((¬ ∃ m f, k < m ∧ (scan true k 0 (init_state entries)).entries[m]? = some f ∧
            f.type = TypeEnum.FREE ∧ f.ptr = result_ptr e) →
          sw = none ∧
          (scan true (k + 1) 0 (init_state entries)).entries =
            (scan true k 0 (init_state entries)).entries)) ∧
    (∀ line p prev o d sw,
      Violation.duplicate line p prev o d sw ∈ (VerifyTrace true entries).log →
      1 ≤ line ∧ line ≤ entries.length ∧
      (scan true (line - 1) 0 (init_state entries)).entries[line - 1]? = some o ∧
      result_ptr o = p ∧ p ≠ 0 ∧
      p ∈ live_keys
        (release_phase true (line - 1) o
          (scan true (line - 1) 0 (init_state entries))).live_ptrs ∧
      (sw = none ↔
        ¬ ∃ m f, line - 1 < m ∧
          (scan true (line - 1) 0 (init_state entries)).entries[m]? = some f ∧
          f.type = TypeEnum.FREE ∧ f.ptr = p)) ∧
    diff_count entries (VerifyTrace true entries).entries ≤
      2 * swap_count (VerifyTrace true entries).log := by
  refine ⟨?_, ?_, ?_⟩
  · intro k e he hp hlive
    have hk : k < entries.length := by
      have h1 := (List.getElem?_eq_some_iff.1 he).1
      rw [scan_length] at h1
      simpa [init_state] using h1
    obtain ⟨prev, d, g1, g2⟩ := step_duplicate k _ e he hp hlive
    have hs := scan_succ_right true k 0 (init_state entries)
    simp only [Nat.zero_add] at hs
    rw [← hs] at g1 g2
    obtain ⟨l, hl⟩ := scan_log_le entries (k + 1) entries.length (by omega)
    refine ⟨prev, d,
      find_free (result_ptr e)
        ((scan true k 0 (init_state entries)).entries.drop (k + 1)) (k + 1), ?_, ?_, ?_⟩
    · unfold VerifyTrace
      rw [hl, g1]
      simp
    · rintro ⟨m, f, hm, hf, hft, hfp⟩
      obtain ⟨j, hj⟩ := find_free_exists (result_ptr e) _ k m f hm hf hft hfp
      obtain ⟨hij, f1, hfj, hft1, hfp1, _⟩ := find_free_drop_some (result_ptr e) _ k j hj
      rw [hj] at g2
      exact ⟨j, f1, hj, hij, hfj, hft1, hfp1, g2⟩
    · intro hno
      have hn := (find_free_eq_none_iff (result_ptr e) _ k).2 hno
      rw [hn] at g2
      exact ⟨hn, g2⟩
  · intro line p prev o d sw hv
    obtain ⟨k, hk, hh⟩ := log_history entries entries.length _ hv
    obtain ⟨h1, h2, h3, h4, h5, h6, _⟩ := hh
    subst h1
    simp only [Nat.add_sub_cancel]
    refine ⟨by omega, by omega, h2, h3, h4, h5, ?_⟩
    rw [h6]
    exact find_free_eq_none_iff p _ k
  · exact (scan_induction true
      (fun _ s => diff_count entries s.entries ≤ 2 * swap_count s.log ∧
        swap_count s.log ≤ duplicate_count s.log)
      (fun i s hs => step_swap_count true entries i s hs) entries.length 0 (init_state entries)
      (by simp [init_state, diff_count_self, swap_count, duplicate_count])).1

/-- C9 (witness): on MALLOC 1, MALLOC 1, FREE 1, MALLOC 2, MALLOC 2, FREE 2 the second
duplicate, logged for line 5, comes from the entry at position 4 of the
sequence after four steps, and it has a swap partner. -/
theorem scan_swaps_once_per_duplicate_witness :
    Violation.duplicate 5 2 4 (mk_entry MALLOC 2 0) (some (mk_entry MALLOC 2 0)) (some 5) ∈
      (VerifyTrace true two_duplicates_trace).log ∧
    (scan true (5 - 1) 0 (init_state two_duplicates_trace)).entries[5 - 1]? =
      some (mk_entry MALLOC 2 0) ∧
    ((some 5 : Option Nat) = none ↔
      ¬ ∃ m f, 5 - 1 < m ∧
        (scan true (5 - 1) 0 (init_state two_duplicates_trace)).entries[m]? = some f ∧
        f.type = TypeEnum.FREE ∧ f.ptr = 2) :=
  have h := (scan_swaps_once_per_duplicate two_duplicates_trace).2.1 5 2 4
    (mk_entry MALLOC 2 0) (some (mk_entry MALLOC 2 0)) (some 5) (by decide)
  ⟨by decide, h.2.2.1, h.2.2.2.2.2.2⟩

/-- C11: the flag error_repaired at the end of the scan is the outcome of the last
repair attempt: it is true exactly when attempt_repair is set and the log has a
last duplicate violation (no duplicate after it), say for line n and address
p, such that in the sequence as it stood after n - 1 steps a FREE of p stood at
a later position j, the first such position, and the step exchanged positions
n - 1 and j. The check of a released address, which raises the
release-of-unknown-address violations, never writes the flag. -/
theorem repaired_flag_is_last_repair_outcome (attempt_repair : Bool)
    (entries : List Entry) :
    ((VerifyTrace attempt_repair entries).error_repaired = true ↔
      attempt_repair = true ∧
      ∃ pre line p prev o d sw post,
        (VerifyTrace attempt_repair entries).log =
          pre ++ Violation.duplicate line p prev o d sw :: post ∧
        duplicate_count post = 0 ∧
        ∃ j f, line - 1 < j ∧
          (scan true (line - 1) 0 (init_state entries)).entries[j]? = some f ∧
          f.type = TypeEnum.FREE ∧ f.ptr = p ∧
          (∀ m e1, line - 1 < m → m < j →
            (scan true (line - 1) 0 (init_state entries)).entries[m]? = some e1 →
            ¬ (e1.type = TypeEnum.FREE ∧ e1.ptr = p)) ∧
          (scan true line 0 (init_state entries)).entries =
            swap_entries (scan true (line - 1) 0 (init_state entries)).entries (line - 1) j) ∧
    (∀ i e addr s,
      (release attempt_repair i e addr s).error_repaired = s.error_repaired) ∧
    (∀ i e s,
      (release_phase attempt_repair i e s).error_repaired = s.error_repaired) := by
  refine ⟨?_, fun i e addr s => release_error_repaired attempt_repair i e addr s,
    fun i e s => release_phase_error_repaired attempt_repair i e s⟩
  cases attempt_repair with
  | false =>
    have h : (VerifyTrace false entries).error_repaired = false := by
      simpa [VerifyTrace, init_state] using
        scan_error_repaired_no_repair entries.length 0 (init_state entries)
    simp [h]
  | true =>
    rw [(scan_flags entries).1, last_duplicate_swapped_iff]
    simp only [true_and]
    constructor
    · rintro ⟨pre, line, p, prev, o, d, j, post, hlog, hpost⟩
      have hv : Violation.duplicate line p prev o d (some j) ∈ (VerifyTrace true entries).log := by
        rw [hlog]; simp
      obtain ⟨k, _, hh⟩ := log_history entries entries.length _ hv
      obtain ⟨h1, _, _, _, _, h6, h7⟩ := hh
      subst h1
      have hk1 : k + 1 - 1 = k := by omega
      obtain ⟨hij, f, hfj, hft, hfp, hmin⟩ := find_free_drop_some p _ k j h6.symm
      refine ⟨pre, k + 1, p, prev, o, d, some j, post, hlog, hpost, j, f, ?_, ?_, hft, hfp,
        ?_, ?_⟩
      · rw [hk1]; exact hij
      · rw [hk1]; exact hfj
      · rw [hk1]; exact hmin
      · rw [hk1]; exact h7
    · rintro ⟨pre, line, p, prev, o, d, sw, post, hlog, hpost, j, f, hij, hfj, hft, hfp, _, _⟩
      have hv : Violation.duplicate line p prev o d sw ∈ (VerifyTrace true entries).log := by
        rw [hlog]; simp
      obtain ⟨k, _, hh⟩ := log_history entries entries.length _ hv
      obtain ⟨h1, _, _, _, _, h6, _⟩ := hh
      subst h1
      have hk1 : k + 1 - 1 = k := by omega
      rw [hk1] at hij hfj
      obtain ⟨j1, hj1⟩ := find_free_exists p _ k j f hij hfj hft hfp
      rw [hj1] at h6
      subst h6
      exact ⟨pre, k + 1, p, prev, o, d, j1, post, hlog, hpost⟩

/-- C11 (witness): on MALLOC 1, MALLOC 1, FREE 1, MALLOC 2, MALLOC 2, FREE 2 the flag
is set at the end, and the last duplicate found a later FREE of its address. -/
theorem repaired_flag_is_last_repair_outcome_witness :
    (VerifyTrace true two_duplicates_trace).error_repaired = true ∧
    ∃ line p j f, line - 1 < j ∧
      (scan true (line - 1) 0 (init_state two_duplicates_trace)).entries[j]? = some f ∧
      f.type = TypeEnum.FREE ∧ f.ptr = p :=
  ⟨by decide,
    let ⟨_, _, line, p, _, _, _, _, _, _, _, j, f, h1, h2, h3, h4, _⟩ :=
      (repaired_flag_is_last_repair_outcome true two_duplicates_trace).1.1 (by decide)
    ⟨line, p, j, f, h1, h2, h3, h4⟩⟩

end MemoryReplay
